import Mathlib

/-!
# Round stamper of the collective time-stamping conode

A shallow embedding of `lib/conode/roundstamper.go`.

Conventions of the embedding.

* A Go `[]byte` is a list of bytes (`Fin 256`); `hashid.HashId` is a `[]byte` and
  `proof.Proof` is a `[]hashid.HashId`.
* Methods on `*RoundStamper` take the round state and return the updated state.
  Everything a method does to the outside world (a `dbg.LvlN` call, a `PutData` or a
  `Close` on a client connection) is appended to a trace of events.
* A Go run-time panic (index out of range, nil dereference, explicit `panic`) is the
  outcome `panicked`; a normal return carries the returned `error` (`none` is `nil`).
* Declarations the file uses but which live in other packages (constants, the Merkle
  tree library, the topology) are fields of `Env`.
* The receiver, its `peer` and the signing message handed in by the signing node are
  valid objects; slice indexing, map lookups and the `Sreq` and `RoundStructure`
  pointers are modelled with their failure.
-/

namespace Conode

/-! ## Data model -/

abbrev Byte := Fin 256

/-- The type `hashid.HashId`, a byte slice. -/
abbrev HashId := List Byte

/-- The type `proof.Proof`, a slice of hash ids. -/
abbrev Proof := List HashId

/-- The stamp request of a client: the payload to be stamped. -/
structure StampRequest where
  Val : List Byte
deriving DecidableEq

/-- The reply `StampSignature` built by `SignatureBroadcast`. -/
structure StampSignature where
  SuiteStr : String
  Timestamp : Int
  MerkleRoot : HashId
  Prf : Proof
  Response : Nat
  Challenge : Nat
  AggCommit : Nat
  AggPublic : Nat
deriving DecidableEq

/-- The message `TimeStampMessage`; `Sreq` and `Srep` are pointers, `none` is nil.
The field `Type` of the source is `MsgType` here. -/
structure TimeStampMessage where
  ReqNo : Nat
  MsgType : Nat
  Sreq : Option StampRequest
  Srep : Option StampSignature
deriving DecidableEq

/-- An entry of the request buffers: the message of the client and the client name. -/
structure MustReplyMessage where
  Tsm : TimeStampMessage
  To : String
deriving DecidableEq

/-- An entry of `round.Queue`; `ReqNo` is a Go `byte`. -/
structure ReplyMessage where
  Val : List Byte
  To : String
  ReqNo : Nat
deriving DecidableEq

/-- The announcement part `in.Am` of a signing message. -/
structure AnnouncementMessage where
  Message : List Byte
  RoundType : String
deriving DecidableEq

/-- The signature broadcast part `in.SBm` of a signing message; the group elements
are not interpreted. -/
structure SignatureBroadcastMessage where
  R0_hat : Nat
  C : Nat
  V0_hat : Nat
  X0_hat : Nat
deriving DecidableEq

/-- The parts of `sign.SigningMessage` read or written by the round stamper. -/
structure SigningMessage where
  Am : AnnouncementMessage
  SBm : SignatureBroadcastMessage
deriving DecidableEq

/-- The embedded `RoundStructure`: what the round stamper reads of it. The field
`suite` stands for the cipher suite (its `String()` and its `Hash`). -/
structure RoundStructure where
  isRoot : Bool
  roundNbr : Int
  viewNbr : Int
  name : String
  suite : String
deriving DecidableEq

/-- What a method does to the outside world. -/
inductive Event where
  | dbg (lvl : Nat) (msg : String)
  | PutData (name : String) (data : TimeStampMessage)
  | Close (name : String)
deriving DecidableEq

/-- The `error` returned by `PutData` of a connection. -/
inductive PutErr where
  | nil
  | ErrClosed
  | ErrNotEstablished
  | other (e : String)
deriving DecidableEq

/-- A client connection `coconet.Conn`: the outcome of `PutData` may depend on
everything that happened before. -/
structure Conn where
  PutData : List Event → TimeStampMessage → PutErr

/-- The `Peer` of the round: the map `Clients` from client name to connection. -/
structure Peer where
  Clients : String → Option Conn

/-- The struct `RoundStamper`. -/
structure RoundStamper where
  RoundStructure : Option RoundStructure
  peer : Peer
  Timestamp : Int
  Proof : List HashId
  MTRoot : HashId
  StampLeaves : List HashId
  StampRoot : HashId
  StampProofs : List Conode.Proof
  Queue : List ReplyMessage

/-- Declarations of other packages: the buffer indices, `hashid.Size`, the round
type names, the message type, the debug level, and the functions
`NewRoundStructure` (of the node of the peer), `proof.ProofTree`,
`proof.CheckLocalProofs` and `proof.CheckProof` (each given the suite). -/
structure Env where
  READING : Nat
  PROCESSING : Nat
  Size : Nat
  RoundCosiStamperType : String
  RoundCosiType : String
  StampSignatureType : Nat
  DebugVisible : Int
  NewRoundStructure : Int → Int → RoundStructure
  ProofTree : String → List HashId → HashId × List Proof
  CheckLocalProofs : String → HashId → List HashId → List Proof → Bool
  CheckProof : String → HashId → HashId → Proof → Bool

/-- How a method ends: it returns its `error`, or it panics. -/
inductive Outcome where
  | returned (err : Option String)
  | panicked (msg : String)
deriving DecidableEq

/-- The result of running a method on a round. -/
structure Exec where
  round : RoundStamper
  trace : List Event
  outcome : Outcome

/-- The constructor `NewRoundStamper`: only `peer` is set. -/
def NewRoundStamper (peer : Peer) : RoundStamper :=
  { RoundStructure := none, peer := peer, Timestamp := 0, Proof := [], MTRoot := [],
    StampLeaves := [], StampRoot := [], StampProofs := [], Queue := [] }

/-! ## Announcement -/

/-- The call `binary.Write(&b, binary.LittleEndian, t)` for an `int64`: the eight
bytes of `uint64(t)`, least significant first. -/
def binaryWrite (t : Int) : List Byte :=
  (List.range 8).map fun i => Fin.ofNat ((t % 2 ^ 64).toNat / 256 ^ i)

/-- The value of eight bytes read as a little-endian `uint64`. -/
def leUint64 (bs : List Byte) : Nat :=
  ((bs.take 8).enum.map fun (p : Nat × Byte) => p.2.val * 256 ^ p.1).sum

/-- The call `binary.Read(bytes.NewBuffer(msg), binary.LittleEndian, &t)` for an
`int64`: with fewer than eight bytes it fails and leaves `t` alone, otherwise it
reads the first eight bytes as a `uint64` and converts to `int64`. -/
def binaryRead (msg : List Byte) : Option Int :=
  if msg.length < 8 then none
  else
    let u := leUint64 msg
    some (if u < 2 ^ 63 then (u : Int) else (u : Int) - 2 ^ 64)

/-- The result of `Announcement`: the round, the signing message `in` as the method
leaves it, the trace and the outcome. -/
structure AnnouncementExec where
  round : RoundStamper
  inMsg : SigningMessage
  trace : List Event
  outcome : Outcome

/-- The method `Announcement`; `now` is `time.Now().UTC().Unix()`. -/
def Announcement (env : Env) (round : RoundStamper) (viewNbr roundNbr : Int)
    (inMsg : SigningMessage) (now : Int) : AnnouncementExec :=
  let tr := [Event.dbg 3 "New roundstamper announcement in round-nbr"]
  let rs := env.NewRoundStructure viewNbr roundNbr
  let round := { round with RoundStructure := some rs }
  let inMsg := { inMsg with Am := { inMsg.Am with RoundType := env.RoundCosiStamperType } }
  if rs.isRoot then
    let round := { round with Timestamp := now }
    let inMsg := { inMsg with Am := { Message := binaryWrite now, RoundType := env.RoundCosiType } }
    { round := round, inMsg := inMsg, trace := tr, outcome := .returned none }
  else
    match binaryRead inMsg.Am.Message with
    | none =>
      { round := { round with Timestamp := 0 }, inMsg := inMsg,
        trace := tr ++ [Event.dbg 1 "Unmashaling timestamp has failed"],
        outcome := .returned none }
    | some t =>
      { round := { round with Timestamp := t }, inMsg := inMsg, trace := tr,
        outcome := .returned none }

/-! ## Commitment -/

/-- The method `Commitment`. -/
def Commitment (env : Env) (round : RoundStamper) : Exec :=
  if round.Queue.length = 0 then
    { round := { round with StampRoot := List.replicate env.Size 0, StampProofs := [[]] },
      trace := [], outcome := .returned none }
  else
    let leaves := round.Queue.map fun msg => msg.Val
    let round := { round with StampLeaves := leaves }
    match round.RoundStructure with
    | none => { round := round, trace := [], outcome := .panicked "nil pointer dereference" }
    | some rs =>
      let rp := env.ProofTree rs.suite round.StampLeaves
      let round := { round with StampRoot := rp.1, StampProofs := rp.2 }
      if env.DebugVisible > 2 then
        if env.CheckLocalProofs rs.suite round.StampRoot round.StampLeaves round.StampProofs
            == true then
          { round := round, trace := [Event.dbg 4 "Local Proofs of"],
            outcome := .returned none }
        else
          { round := round, trace := [],
            outcome := .panicked ("Local Proofs" ++ rs.name ++ " unsuccessful for round "
              ++ toString rs.roundNbr) }
      else
        { round := round, trace := [], outcome := .returned none }

/-! ## QueueSet -/

/-- The body of the loop of `QueueSet`: the `ReplyMessage` built from the request `q`,
`byte(q.Tsm.ReqNo)` being the number modulo 256; a nil `Sreq` panics. -/
def replyOf (q : MustReplyMessage) : Option ReplyMessage :=
  match q.Tsm.Sreq with
  | none => none
  | some sreq => some { Val := sreq.Val, To := q.To, ReqNo := q.Tsm.ReqNo % 256 }

/-- The loop of `QueueSet` over `Queue[PROCESSING]`, filling `round.Queue` entry by
entry in order. -/
def fillQueue : List MustReplyMessage → Option (List ReplyMessage)
  | [] => some []
  | q :: qs =>
    match replyOf q with
    | none => none
    | some r =>
      match fillQueue qs with
      | none => none
      | some rs => some (r :: rs)

/-- The method `QueueSet`: it returns the round and the buffers as it leaves them, or
`none` when it panics (a buffer index out of range, a nil `Sreq`). -/
def QueueSet (env : Env) (round : RoundStamper) (Queue : List (List MustReplyMessage)) :
    Option (RoundStamper × List (List MustReplyMessage)) :=
  match Queue[env.PROCESSING]?, Queue[env.READING]? with
  | some p, some r =>
    let Queue := (Queue.set env.READING p).set env.PROCESSING r
    match Queue[env.READING]? with
    | none => none
    | some r0 =>
      let Queue := Queue.set env.READING (r0.take 0)
      match Queue[env.PROCESSING]? with
      | none => none
      | some proc =>
        match fillQueue proc with
        | none => none
        | some q => some ({ round with Queue := q }, Queue)
  | _, _ => none

/-! ## Challenge and Response -/

/-- The method `Challenge`. -/
def Challenge (round : RoundStamper) : Exec :=
  { round := round, trace := [], outcome := .returned none }

/-- The method `Response`. -/
def Response (round : RoundStamper) : Exec :=
  { round := round, trace := [], outcome := .returned none }

/-! ## SignatureBroadcast -/

/-- The method `PutToClient`: the trace after the call, or `none` when the client
name is not in `Clients` (a method call on a nil interface panics). -/
def PutToClient (round : RoundStamper) (name : String) (data : TimeStampMessage)
    (tr : List Event) : Option (List Event) :=
  match round.peer.Clients name with
  | none => none
  | some conn =>
    let err := conn.PutData tr data
    let tr := tr ++ [Event.PutData name data]
    if err = PutErr.ErrClosed then
      some (tr ++ [Event.Close name])
    else if err ≠ PutErr.nil ∧ err ≠ PutErr.ErrNotEstablished then
      some (tr ++ [Event.dbg 1 "%p error putting to client: %v"])
    else
      some tr

/-- The proof `combProof` of one loop iteration: a copy of `round.Proof` with
`StampProofs[i]` appended. -/
def combProof (round : RoundStamper) (p : Proof) : Proof :=
  round.Proof ++ p

/-- The response message built in one loop iteration. -/
def respMessg (env : Env) (round : RoundStamper) (rs : RoundStructure)
    (inMsg : SigningMessage) (msg : ReplyMessage) (prf : Proof) : TimeStampMessage :=
  { MsgType := env.StampSignatureType,
    ReqNo := msg.ReqNo,
    Sreq := none,
    Srep := some
      { SuiteStr := rs.suite,
        Timestamp := round.Timestamp,
        MerkleRoot := round.MTRoot,
        Prf := prf,
        Response := inMsg.SBm.R0_hat,
        Challenge := inMsg.SBm.C,
        AggCommit := inMsg.SBm.V0_hat,
        AggPublic := inMsg.SBm.X0_hat } }

/-- The loop of `SignatureBroadcast` from index `i` on, `rest` being `Queue[i:]`:
the trace and the outcome. -/
def broadcastLoop (env : Env) (round : RoundStamper) (inMsg : SigningMessage) :
    Nat → List ReplyMessage → List Event → List Event × Outcome
  | _, [], tr => (tr, .returned none)
  | i, msg :: rest, tr =>
    match round.StampProofs[i]? with
    | none => (tr, .panicked "index out of range")
    | some p =>
      let comb := combProof round p
      match round.RoundStructure with
      | none => (tr, .panicked "nil pointer dereference")
      | some rs =>
        match round.StampLeaves[i]? with
        | none => (tr, .panicked "index out of range")
        | some leaf =>
          let tr := tr ++ [if env.CheckProof rs.suite round.MTRoot leaf comb
            then Event.dbg 2 "Proof is OK for msg" else Event.dbg 2 "Inclusion-proof failed"]
          match PutToClient round msg.To (respMessg env round rs inMsg msg comb) tr with
          | none => (tr, .panicked "nil pointer dereference")
          | some tr =>
            broadcastLoop env round inMsg (i + 1) rest
              (tr ++ [Event.dbg 2 "Sent signature response back to client"])

/-- The method `SignatureBroadcast`. -/
def SignatureBroadcast (env : Env) (round : RoundStamper) (inMsg : SigningMessage) : Exec :=
  let r := broadcastLoop env round inMsg 0 round.Queue []
  { round := round, trace := r.1, outcome := r.2 }

/-! ## Reading a trace -/

/-- The delivery attempt recorded by an event, if it is one: client name and message. -/
def deliveryOf : Event → Option (String × TimeStampMessage)
  | Event.PutData name data => some (name, data)
  | _ => none

/-- The delivery attempts of a trace, in order. -/
def deliveries (tr : List Event) : List (String × TimeStampMessage) :=
  tr.filterMap deliveryOf

/-- The verdict of the self-verification recorded by an event, if it is one of the two
log lines of the check in `SignatureBroadcast`. -/
def verdictOf : Event → Option Bool
  | Event.dbg lvl msg =>
    if lvl = 2 ∧ msg = "Proof is OK for msg" then some true
    else if lvl = 2 ∧ msg = "Inclusion-proof failed" then some false
    else none
  | _ => none

/-- The verdicts of the self-verification logged in a trace, in order. -/
def verdicts (tr : List Event) : List Bool :=
  tr.filterMap verdictOf

/-- The proofs carried by the responses of a trace, in order of dispatch. -/
def sentProofs (tr : List Event) : List Proof :=
  (deliveries tr).filterMap fun d => d.2.Srep.map fun srep => srep.Prf

/-- A round on which `SignatureBroadcast` can run to its end: the round structure is
set, every queue entry has its leaf and its proof, and every addressed client has a
connection in `Clients`. -/
def Deliverable (round : RoundStamper) : Prop :=
  round.RoundStructure.isSome = true ∧
  round.Queue.length ≤ round.StampLeaves.length ∧
  round.Queue.length ≤ round.StampProofs.length ∧
  ∀ msg ∈ round.Queue, (round.peer.Clients msg.To).isSome = true

instance (round : RoundStamper) : Decidable (Deliverable round) := by
  unfold Deliverable
  infer_instance

/-! ## Example round -/

/-- A connection whose `PutData` always succeeds. -/
def connOK : Conn := { PutData := fun _ _ => PutErr.nil }

/-- A connection whose `PutData` always fails with `ErrClosed`. -/
def connClosed : Conn := { PutData := fun _ _ => PutErr.ErrClosed }

/-- A peer with two clients: `c` is reachable, the connection of `d` is closed. -/
def peerEx : Peer :=
  { Clients := fun n =>
      if n = "c" then some connOK else if n = "d" then some connClosed else none }

/-- An environment with the buffer indices 0 and 1, 32-byte hash ids, and a Merkle
library whose `CheckProof` rejects every proof. -/
def envEx : Env :=
  { READING := 0, PROCESSING := 1, Size := 32, RoundCosiStamperType := "cosistamper",
    RoundCosiType := "cosi", StampSignatureType := 2, DebugVisible := 1,
    NewRoundStructure := fun v r =>
      { isRoot := false, roundNbr := r, viewNbr := v, name := "node", suite := "s" },
    ProofTree := fun _ ls => ([], ls.map fun _ => []),
    CheckLocalProofs := fun _ _ _ _ => true,
    CheckProof := fun _ _ _ _ => false }

/-- A non-root round with two batched requests, an inherited path `[[1]]` and the local
proofs `[[2]]` and `[[3]]`. -/
def roundEx : RoundStamper :=
  { NewRoundStamper peerEx with
    RoundStructure :=
      some { isRoot := false, roundNbr := 1, viewNbr := 0, name := "node", suite := "s" },
    Timestamp := 1500000000,
    Proof := [[1]],
    MTRoot := [9],
    StampLeaves := [[0], [5]],
    StampProofs := [[[2]], [[3]]],
    Queue := [{ Val := [0], To := "d", ReqNo := 7 }, { Val := [5], To := "c", ReqNo := 8 }] }

/-- A signing message carrying a signature broadcast. -/
def inEx : SigningMessage :=
  { Am := { Message := [], RoundType := "" },
    SBm := { R0_hat := 1, C := 2, V0_hat := 3, X0_hat := 4 } }

/-- The environment of a root node: as `envEx`, with a topology in which the node is
the root. -/
def envRoot : Env :=
  { envEx with
    NewRoundStructure := fun v r =>
      { isRoot := true, roundNbr := r, viewNbr := v, name := "root", suite := "s" } }

/-- A round of the example peer whose queue is empty. -/
def roundEmpty : RoundStamper :=
  { roundEx with Queue := [] }

/-! ## Sequences of operations on the buffers -/

/-- What identifies the request behind an entry of `round.Queue`: the payload (as a
stamp request), the client and the sequence number. -/
def replyKey (rep : ReplyMessage) : Option StampRequest × String × Nat :=
  (some { Val := rep.Val }, rep.To, rep.ReqNo)

/-- What an entry of `round.Queue` keeps of a buffered request: the stamp request, the
client and the sequence number as a byte. -/
def requestKey (q : MustReplyMessage) : Option StampRequest × String × Nat :=
  (q.Tsm.Sreq, q.To, q.Tsm.ReqNo % 256)

/-- An operation on the buffers of a node: a request is enqueued, or a fresh round
calls `QueueSet`. -/
inductive Op where
  | enqueue (m : MustReplyMessage)
  | queueSet

/-- Modelled from the spec: the enqueue of the request queue, which is code of the
stamp server outside this file: it appends one request to `Queue[READING]`. -/
def enqueue (env : Env) (Queue : List (List MustReplyMessage)) (m : MustReplyMessage) :
    Option (List (List MustReplyMessage)) :=
  match Queue[env.READING]? with
  | none => none
  | some r => some (Queue.set env.READING (r ++ [m]))

/-- The buffers of a node together with the queues of the rounds run so far. -/
structure NodeState where
  Queue : List (List MustReplyMessage)
  rounds : List (List ReplyMessage)

/-- One operation: an enqueue changes the buffers; a `QueueSet` is called by a fresh
round, whose queue is recorded. -/
def step (env : Env) (peer : Peer) (s : NodeState) : Op → Option NodeState
  | Op.enqueue m =>
    match enqueue env s.Queue m with
    | none => none
    | some Q => some { s with Queue := Q }
  | Op.queueSet =>
    match QueueSet env (NewRoundStamper peer) s.Queue with
    | none => none
    | some r => some { Queue := r.2, rounds := s.rounds ++ [r.1.Queue] }

/-- A sequence of operations, in order; `none` when one of them panics. -/
def run (env : Env) (peer : Peer) : NodeState → List Op → Option NodeState
  | s, [] => some s
  | s, op :: ops =>
    match step env peer s op with
    | none => none
    | some s1 => run env peer s1 ops

/-- The requests enqueued by a sequence of operations, in order. -/
def enqueued : List Op → List MustReplyMessage
  | [] => []
  | Op.enqueue m :: ops => m :: enqueued ops
  | Op.queueSet :: ops => enqueued ops

/-- The runs of a sequence of operations, as the claim words them: the requests
enqueued before the first `QueueSet`, and then the requests enqueued after each
`QueueSet` (up to the next one, or to the end). -/
def segments : List Op → List MustReplyMessage × List (List MustReplyMessage)
  | [] => ([], [])
  | Op.enqueue m :: ops => (m :: (segments ops).1, (segments ops).2)
  | Op.queueSet :: ops => ([], (segments ops).1 :: (segments ops).2)

/-- All runs of a sequence of operations: one per `QueueSet`, then the run after the
last `QueueSet`. -/
def runs (ops : List Op) : List (List MustReplyMessage) :=
  (segments ops).1 :: (segments ops).2

/-- A request of client `a` with payload `[1]` and sequence number 300. -/
def reqA : MustReplyMessage :=
  { Tsm := { ReqNo := 300, MsgType := 1, Sreq := some { Val := [1] }, Srep := none },
    To := "a" }

/-- A request of client `b` with payload `[2]` and sequence number 3. -/
def reqB : MustReplyMessage :=
  { Tsm := { ReqNo := 3, MsgType := 1, Sreq := some { Val := [2] }, Srep := none },
    To := "b" }

/-- A request of client `c` with the same payload as `reqA`. -/
def reqC : MustReplyMessage :=
  { Tsm := { ReqNo := 4, MsgType := 1, Sreq := some { Val := [1] }, Srep := none },
    To := "c" }

/-- Two requests, a round, one request, a round, one more request. -/
def opsEx : List Op :=
  [Op.enqueue reqA, Op.enqueue reqB, Op.queueSet, Op.enqueue reqC, Op.queueSet,
    Op.enqueue reqB]

/-! ## Comparing responses -/

/-- A response with its sequence number and its proof blanked: what is left is
common to the responses of one round. -/
def withoutSeqAndProof (m : TimeStampMessage) : TimeStampMessage :=
  { m with ReqNo := 0, Srep := m.Srep.map fun srep => { srep with Prf := [] } }

/-- What `PutToClient` does after the call of `PutData`, read off the statement of the
dispatcher contract: a closed connection is cleaned up, an error that is neither
`ErrClosed` nor `ErrNotEstablished` is logged, anything else needs nothing. -/
def afterPutData (name : String) : PutErr → List Event
  | PutErr.nil => []
  | PutErr.ErrClosed => [Event.Close name]
  | PutErr.ErrNotEstablished => []
  | PutErr.other _ => [Event.dbg 1 "%p error putting to client: %v"]

/-- A connection whose `PutData` always fails with an error of the transport. -/
def connBroken : Conn := { PutData := fun _ _ => PutErr.other "broken pipe" }

/-- A peer whose only client has a broken connection. -/
def peerBroken : Peer :=
  { Clients := fun n => if n = "c" then some connBroken else none }

/-- The example round of a peer whose client has a broken connection. -/
def roundBroken : RoundStamper :=
  { roundEx with peer := peerBroken }

/-- A response message as `SignatureBroadcast` builds it on the example round. -/
def respEx : TimeStampMessage :=
  respMessg envEx roundEx
    { isRoot := false, roundNbr := 1, viewNbr := 0, name := "node", suite := "s" }
    inEx { Val := [5], To := "c", ReqNo := 8 } [[1], [3]]

/-- An environment at debug level 3 whose `CheckLocalProofs` rejects the local proofs. -/
def envDebug : Env :=
  { envEx with DebugVisible := 3, CheckLocalProofs := fun _ _ _ _ => false }

/-- An environment whose Merkle library returns one proof per leaf (all of them
`[[7]]`) and the root `[9]`. -/
def envTree : Env :=
  { envEx with ProofTree := fun _ ls => ([9], ls.map fun _ => [[7]]) }

/-- Buffers whose `READING` slot holds two requests with the sequence numbers 300 and
44, and a third request with the number 3. -/
def buffersSeq : List (List MustReplyMessage) :=
  [[reqA, { reqC with Tsm := { reqC.Tsm with ReqNo := 44 } }, reqB], []]

/-- A peer all of whose clients are reachable. -/
def peerAll : Peer := { Clients := fun _ => some connOK }

/-- The example round as `QueueSet` leaves it on the buffers `buffersSeq`. -/
def roundSeq1 : RoundStamper :=
  { roundEx with
    Queue := [{ Val := [1], To := "a", ReqNo := 44 }, { Val := [1], To := "c", ReqNo := 44 },
      { Val := [2], To := "b", ReqNo := 3 }] }

/-- A round with the queue of `roundSeq1`, three leaves and proofs, and reachable
clients. -/
def roundSeq2 : RoundStamper :=
  { roundSeq1 with
    peer := peerAll,
    StampLeaves := [[1], [1], [2]],
    StampProofs := [[[2]], [[3]], [[4]]] }

end Conode

/-!
# Measures of the monitor

A shallow embedding of `monitor/measure.go`: the measures `SingleMeasure`,
`CounterIOMeasure` and `DockerMeasure` and the function `send`.

A `float64` is a value of a type `F` that is not interpreted; the conversion
`float64(x)` of a `uint64` and the constant `0` are the fields of `Float64`. A `uint64`
is a natural number below `2 ^ 64`. The package variables `encoder` and `enabled` are
the fields of `Sink`; what a function does to the outside world is appended to a trace.
-/

namespace Monitor

/-- The operations on `float64` the measures use. -/
structure Float64 (F : Type) where
  ofUint64 : Nat → F
  zero : F

/-- The struct `SingleMeasure`. -/
structure SingleMeasure (F : Type) where
  Name : String
  Value : F
deriving DecidableEq

/-- What the monitor code does to the outside world: a call of `send`, a call of
`encoder.Encode`, a sleep, and the log lines. -/
inductive Event (F : Type) where
  | send (v : SingleMeasure F)
  | Encode (v : SingleMeasure F)
  | Sleep (ms : Nat)
  | Lvl1 (msg : String)
  | LLvl3 (msg : String)
  | Error (msg : String)
deriving DecidableEq

/-- The package variables `encoder` (`none` is nil) and `enabled`. Whether a call of
`Encode` succeeds may depend on everything that happened before. -/
structure Sink (F : Type) where
  encoder : Option (List (Event F) → SingleMeasure F → Bool)
  enabled : Bool

/-- The constructor `NewSingleMeasure`. -/
def NewSingleMeasure {F : Type} (name : String) (value : F) : SingleMeasure F :=
  { Name := name, Value := value }

/-- The loop of `send`, one round per value of `wait`: the trace, and whether an
`Encode` succeeded. -/
def sendLoop {F : Type} (enc : List (Event F) → SingleMeasure F → Bool)
    (v : SingleMeasure F) : List Nat → List (Event F) → List (Event F) × Bool
  | [], tr => (tr, false)
  | wait :: waits, tr =>
    if enc tr v then (tr ++ [Event.Encode v], true)
    else
      sendLoop enc v waits
        (tr ++ [Event.Encode v, Event.Lvl1 "Couldn't send to monitor-sink:", Event.Sleep wait])

/-- The function `send`: the trace and the returned `error`. The loop runs for
`wait` = 500, 600, 700, 800, 900. -/
def send {F : Type} (sink : Sink F) (v : SingleMeasure F) (tr : List (Event F)) :
    List (Event F) × Option String :=
  let tr := tr ++ [Event.send v]
  match sink.encoder with
  | none => (tr, some "Monitor's sink connection not initalized. Can not send any measures")
  | some enc =>
    if !sink.enabled then (tr, none)
    else
      let r := sendLoop enc v [500, 600, 700, 800, 900] tr
      if !r.2 then (r.1, some "Could not send any measures") else (r.1, none)

/-- The method `SingleMeasure.Record`: the measure with its value reset, and the
trace. -/
def SingleMeasure.Record {F : Type} (ops : Float64 F) (sink : Sink F) (sm : SingleMeasure F)
    (tr : List (Event F)) : SingleMeasure F × List (Event F) :=
  let r := send sink sm tr
  let tr := match r.2 with
    | some _ => r.1 ++ [Event.Error "Error sending SingleMeasure"]
    | none => r.1
  ({ sm with Value := ops.zero }, tr)

/-- The measures handed to `send` in a trace, in order. -/
def reported {F : Type} (tr : List (Event F)) : List (SingleMeasure F) :=
  tr.filterMap fun e =>
    match e with
    | Event.send v => some v
    | _ => none

/-- The interface `CounterIO`: what `Rx()` and `Tx()` return may depend on everything
that happened before. -/
structure CounterIO (F : Type) where
  Rx : List (Event F) → Nat
  Tx : List (Event F) → Nat

/-- The struct `CounterIOMeasure`. -/
structure CounterIOMeasure (F : Type) where
  name : String
  counter : CounterIO F
  baseTx : Nat
  baseRx : Nat

/-- The difference `a - b` of two `uint64`. -/
def subUint64 (a b : Nat) : Nat :=
  (a % 2 ^ 64 + (2 ^ 64 - b % 2 ^ 64)) % 2 ^ 64

/-- The constructor `NewCounterIOMeasure`. -/
def NewCounterIOMeasure {F : Type} (name : String) (counter : CounterIO F)
    (tr : List (Event F)) : CounterIOMeasure F :=
  { name := name, counter := counter,
    baseTx := counter.Tx tr % 2 ^ 64, baseRx := counter.Rx tr % 2 ^ 64 }

/-- The method `CounterIOMeasure.Record`: the measure with its new base values, and
the trace. -/
def CounterIOMeasure.Record {F : Type} (ops : Float64 F) (sink : Sink F)
    (cm : CounterIOMeasure F) (tr : List (Event F)) :
    CounterIOMeasure F × List (Event F) :=
  let bRx := cm.counter.Rx tr % 2 ^ 64
  let read := NewSingleMeasure (cm.name ++ "_rx") (ops.ofUint64 (subUint64 bRx cm.baseRx))
  let bTx := cm.counter.Tx tr % 2 ^ 64
  let written := NewSingleMeasure (cm.name ++ "_tx") (ops.ofUint64 (subUint64 bTx cm.baseTx))
  let tr := (SingleMeasure.Record ops sink read tr).2
  let tr := (SingleMeasure.Record ops sink written tr).2
  ({ cm with baseRx := bRx, baseTx := bTx }, tr)

/-- The measures put to the encoder in a trace (the calls of `encoder.Encode`), in
order. -/
def encoded {F : Type} (tr : List (Event F)) : List (SingleMeasure F) :=
  tr.filterMap fun e =>
    match e with
    | Event.Encode v => some v
    | _ => none

/-- A sink on which measures arrive: it is enabled, it is connected, and its encoder
accepts every measure. -/
def Accepting {F : Type} (sink : Sink F) : Prop :=
  sink.enabled = true ∧ ∃ enc, sink.encoder = some enc ∧ ∀ t v, enc t v = true

/-- The two measures of a counter record as the claim words them: under the name with
`_rx` the `uint64` difference of the bytes read now and at the base, under the name
with `_tx` the one of the bytes written, each as a `float64`. -/
def differences {F : Type} (ops : Float64 F) (name : String) (rx baseRx tx baseTx : Nat) :
    List (SingleMeasure F) :=
  [{ Name := name ++ "_rx", Value := ops.ofUint64 (subUint64 rx baseRx) },
   { Name := name ++ "_tx", Value := ops.ofUint64 (subUint64 tx baseTx) }]

/-- The struct `DockerMeasure`. -/
structure DockerMeasure (F : Type) where
  name : String
  docker : List String
  sys : List F
  user : List F

/-- The constructor `NewDockerMeasure`: only `name` and `docker` are set, `sys` and
`user` are nil slices. -/
def NewDockerMeasure {F : Type} (name : String) (docker : List String) : DockerMeasure F :=
  { name := name, docker := docker, sys := [], user := [] }

/-- What `DockerMeasure.Update` gets from outside: `ioutil.ReadFile` (`none` is an
error), `strings.Split` at the newline, `strings.TrimPrefix` and
`strconv.ParseFloat` (the value, and the error if any). -/
structure Files (F : Type) where
  ReadFile : String → Option String
  Split : String → List String
  TrimPrefix : String → String → String
  ParseFloat : String → F × Option String

/-- The result of a method of `DockerMeasure`: the measure, the trace, and the panic
if there was one. -/
structure DockerExec (F : Type) where
  dm : DockerMeasure F
  trace : List (Event F)
  panic : Option String

/-- The loop of `DockerMeasure.Update` from index `i` on. -/
def updateLoop {F : Type} (files : Files F) :
    Nat → List String → DockerMeasure F → List (Event F) → DockerExec F
  | _, [], dm, tr => { dm := dm, trace := tr, panic := none }
  | i, d :: rest, dm, tr =>
    let cpuFile := "/sys/fs/cgroup/cpuacct/docker/" ++ d ++ "/cpuacct.stat"
    let tr := tr ++ [Event.LLvl3 "Getting docker-stats of"]
    match files.ReadFile cpuFile with
    | none => updateLoop files (i + 1) rest dm tr
    | some cpu =>
      let times := files.Split cpu
      match times[0]?, times[1]? with
      | some t0, some t1 =>
        let user := files.TrimPrefix t0 "user "
        let sys := files.TrimPrefix t1 "system "
        let pu := files.ParseFloat user
        if i < dm.user.length then
          let dm := { dm with user := dm.user.set i pu.1 }
          let tr := match pu.2 with
            | some e => tr ++ [Event.Error e]
            | none => tr
          let ps := files.ParseFloat sys
          if i < dm.sys.length then
            let dm := { dm with sys := dm.sys.set i ps.1 }
            let tr := match ps.2 with
              | some e => tr ++ [Event.Error e]
              | none => tr
            updateLoop files (i + 1) rest dm (tr ++ [Event.LLvl3 "Stats are"])
          else { dm := dm, trace := tr, panic := some "index out of range" }
        else { dm := dm, trace := tr, panic := some "index out of range" }
      | _, _ => { dm := dm, trace := tr, panic := some "index out of range" }

/-- The method `DockerMeasure.Update`. -/
def DockerMeasure.Update {F : Type} (files : Files F) (dm : DockerMeasure F)
    (tr : List (Event F)) : DockerExec F :=
  updateLoop files 0 dm.docker dm tr

/-- The loop of `DockerMeasure.Record` from index `i` on, over the remaining docker
ids. -/
def recordLoop {F : Type} (ops : Float64 F) (sink : Sink F) (dm : DockerMeasure F) :
    Nat → List String → List (Event F) → List (Event F) × Option String
  | _, [], tr => (tr, none)
  | i, _ :: rest, tr =>
    let dn := dm.name ++ "_"
    match dm.sys[i]? with
    | none => (tr, some "index out of range")
    | some s =>
      let tr := (SingleMeasure.Record ops sink (NewSingleMeasure (dn ++ "sys") s) tr).2
      match dm.user[i]? with
      | none => (tr, some "index out of range")
      | some u =>
        let tr := (SingleMeasure.Record ops sink (NewSingleMeasure (dn ++ "user") u) tr).2
        recordLoop ops sink dm (i + 1) rest tr

/-- The method `DockerMeasure.Record`. -/
def DockerMeasure.Record {F : Type} (ops : Float64 F) (sink : Sink F) (dm : DockerMeasure F)
    (tr : List (Event F)) : DockerExec F :=
  let r := recordLoop ops sink dm 0 dm.docker tr
  { dm := dm, trace := r.1, panic := r.2 }

/-! ## Example measures -/

/-- The floats are integers in the examples. -/
def floatEx : Float64 Int := { ofUint64 := fun n => (n : Int), zero := 0 }

/-- A connected sink that accepts every measure. -/
def sinkEx : Sink Int := { encoder := some fun _ _ => true, enabled := true }

/-- A counter that has read 10 bytes and written 20, and reads and writes 5 and 7
more bytes with every measure sent. -/
def counterEx : CounterIO Int :=
  { Rx := fun tr => 10 + 5 * (reported tr).length,
    Tx := fun tr => 20 + 7 * (reported tr).length }

/-- A counter that stands still. -/
def counterStill : CounterIO Int := { Rx := fun _ => 10, Tx := fun _ => 20 }

/-- A counter measure on the still counter whose base values are 4 bytes read and 5
written. -/
def cmEx : CounterIOMeasure Int :=
  { name := "bw", counter := counterStill, baseRx := 4, baseTx := 5 }

/-- A trace in which one measure has been handed to `send`. -/
def trOne : List (Event Int) := [Event.send { Name := "round", Value := 1 }]

/-- A sink that is connected but disabled. -/
def sinkOff : Sink Int := { encoder := some fun _ _ => true, enabled := false }

/-- A sink whose encoder fails twice before it accepts a measure. -/
def sinkSlow : Sink Int :=
  { encoder := some fun tr _ => decide (2 ≤ (encoded tr).length), enabled := true }

/-- A file system in which every stat file reads `user 12` and `system 34`. -/
def filesEx : Files Int :=
  { ReadFile := fun _ => some "stat",
    Split := fun _ => ["user 12", "system 34"],
    TrimPrefix := fun s _ => s,
    ParseFloat := fun _ => (12, none) }

/-- A file system without any stat file. -/
def filesNone : Files Int :=
  { ReadFile := fun _ => none,
    Split := fun _ => [],
    TrimPrefix := fun s _ => s,
    ParseFloat := fun _ => (0, some "invalid syntax") }

end Monitor

/-!
# Ordered names of the random update client

A shallow embedding of `orderName` and `orderedIdsFromName` of
`services/swupdate/simulation_random_client.go`.

A Go map from package name to skipblock id is the list of its entries, each key once.
A `range` over the map yields the keys in an order that is not specified: the functions
take this order as the argument `iter`. Strings are compared as `sort.Strings` does,
character by character.
-/

namespace Swupdate

/-- The type `skipchain.SkipBlockID`, a byte slice. -/
abbrev SkipBlockID := List (Fin 256)

/-- A Go `map[string]skipchain.SkipBlockID`. -/
structure GoMap where
  entries : List (String × SkipBlockID)

/-- The entry of a key in a list of entries. -/
def lookup : List (String × SkipBlockID) → String → Option SkipBlockID
  | [], _ => none
  | (k, v) :: es, x => if x = k then some v else lookup es x

/-- The keys of a map. -/
def GoMap.keys (m : GoMap) : List String :=
  m.entries.map fun e => e.1

/-- The value `len(m)`. -/
def GoMap.len (m : GoMap) : Nat :=
  m.entries.length

/-- The value `m[k]`: the zero value, a nil id, when the key is absent. -/
def GoMap.get (m : GoMap) (k : String) : SkipBlockID :=
  match lookup m.entries k with
  | some v => v
  | none => []

/-- The call `sort.Strings(n)`: the strings in increasing order. -/
def sortStrings (n : List String) : List String :=
  n.insertionSort fun a b => a.toList ≤ b.toList

/-- The loop of `orderName`: `n[i] = k` for each key `k` of the iteration, `i`
counting up; an index out of range panics. -/
def fillNames : List String → Nat → List String → Option (List String)
  | n, _, [] => some n
  | n, i, k :: ks => if i < n.length then fillNames (n.set i k) (i + 1) ks else none

/-- The function `orderName`, `iter` being the keys as the `range` yields them. -/
def orderName (m : GoMap) (iter : List String) : Option (List String) :=
  match fillNames (List.replicate m.len "") 0 iter with
  | none => none
  | some n => some (sortStrings n)

/-- The function `orderedIdsFromName`, `iter` being the keys as the `range` of its call
of `orderName` yields them. -/
def orderedIdsFromName (m : GoMap) (iter : List String) : Option (List SkipBlockID) :=
  match orderName m iter with
  | none => none
  | some names => some (names.map m.get)

/-- A map of three packages. -/
def mapEx : GoMap :=
  { entries := [("vim", [1]), ("apt", [2]), ("git", [3])] }

end Swupdate

namespace Conode

/-! # Theorems -/

/-! ## Facts about the loop of SignatureBroadcast -/

theorem deliveries_append (a b : List Event) :
    deliveries (a ++ b) = deliveries a ++ deliveries b := by
  simp [deliveries, List.filterMap_append]

theorem verdicts_append (a b : List Event) :
    verdicts (a ++ b) = verdicts a ++ verdicts b := by
  simp [verdicts, List.filterMap_append]

theorem deliveries_check (b : Bool) :
    deliveries [if b = true then Event.dbg 2 "Proof is OK for msg"
      else Event.dbg 2 "Inclusion-proof failed"] = [] := by
  cases b <;> rfl

theorem verdicts_check (b : Bool) :
    verdicts [if b = true then Event.dbg 2 "Proof is OK for msg"
      else Event.dbg 2 "Inclusion-proof failed"] = [b] := by
  cases b <;> rfl

/-- A call of `PutToClient` for a connected client records the delivery attempt and
then at most a `Close` or an error log. -/
theorem PutToClient_connected (round : RoundStamper) (name : String)
    (data : TimeStampMessage) (tr : List Event) (conn : Conn)
    (h : round.peer.Clients name = some conn) :
    ∃ ex, PutToClient round name data tr = some (tr ++ [Event.PutData name data] ++ ex) ∧
      deliveries ex = [] ∧ verdicts ex = [] := by
  unfold PutToClient
  rw [h]
  dsimp only
  by_cases h1 : conn.PutData tr data = PutErr.ErrClosed
  · exact ⟨[Event.Close name], by simp [h1], rfl, rfl⟩
  · by_cases h2 : conn.PutData tr data ≠ PutErr.nil ∧
        conn.PutData tr data ≠ PutErr.ErrNotEstablished
    · exact ⟨[Event.dbg 1 "%p error putting to client: %v"], by simp [h1, h2], rfl, rfl⟩
    · exact ⟨[], by simp [h1, h2], rfl, rfl⟩

/-- The loop of `SignatureBroadcast`, run from index `i` on a suffix of the queue whose
entries all have a leaf, a proof and a connected client: it returns nil, it attempts
one delivery per entry, in order, and it logs one verdict per entry. -/
theorem broadcastLoop_spec (env : Env) (round : RoundStamper) (inMsg : SigningMessage)
    (rs : RoundStructure) (hrs : round.RoundStructure = some rs) :
    ∀ (rest : List ReplyMessage) (i : Nat) (tr : List Event),
      i + rest.length ≤ round.StampProofs.length →
      i + rest.length ≤ round.StampLeaves.length →
      (∀ msg ∈ rest, (round.peer.Clients msg.To).isSome = true) →
      (broadcastLoop env round inMsg i rest tr).2 = Outcome.returned none ∧
      deliveries (broadcastLoop env round inMsg i rest tr).1 =
        deliveries tr ++ List.zipWith
          (fun msg p => (msg.To, respMessg env round rs inMsg msg (round.Proof ++ p)))
          rest (round.StampProofs.drop i) ∧
      verdicts (broadcastLoop env round inMsg i rest tr).1 =
        verdicts tr ++ (List.zipWith
          (fun leaf p => env.CheckProof rs.suite round.MTRoot leaf (round.Proof ++ p))
          (round.StampLeaves.drop i) (round.StampProofs.drop i)).take rest.length := by
  intro rest
  induction rest with
  | nil =>
    intro i tr _ _ _
    simp [broadcastLoop]
  | cons msg rest ih =>
    intro i tr hp hl hc
    simp only [List.length_cons] at hp hl
    have hpi : i < round.StampProofs.length := by omega
    have hli : i < round.StampLeaves.length := by omega
    obtain ⟨conn, hconn⟩ := Option.isSome_iff_exists.mp (hc msg (List.mem_cons_self _ _))
    obtain ⟨ex, hput, hdex, hvex⟩ := PutToClient_connected round msg.To
      (respMessg env round rs inMsg msg (combProof round round.StampProofs[i]))
      (tr ++ [if env.CheckProof rs.suite round.MTRoot round.StampLeaves[i]
          (combProof round round.StampProofs[i])
        then Event.dbg 2 "Proof is OK for msg" else Event.dbg 2 "Inclusion-proof failed"])
      conn hconn
    have hstep := ih (i + 1)
      (tr ++ [if env.CheckProof rs.suite round.MTRoot round.StampLeaves[i]
          (combProof round round.StampProofs[i])
        then Event.dbg 2 "Proof is OK for msg" else Event.dbg 2 "Inclusion-proof failed"]
        ++ [Event.PutData msg.To
          (respMessg env round rs inMsg msg (combProof round round.StampProofs[i]))] ++ ex
        ++ [Event.dbg 2 "Sent signature response back to client"])
      (by omega) (by omega) (fun m hm => hc m (List.mem_cons_of_mem _ hm))
    have hloop : broadcastLoop env round inMsg i (msg :: rest) tr =
        broadcastLoop env round inMsg (i + 1) rest
          (tr ++ [if env.CheckProof rs.suite round.MTRoot round.StampLeaves[i]
              (combProof round round.StampProofs[i])
            then Event.dbg 2 "Proof is OK for msg" else Event.dbg 2 "Inclusion-proof failed"]
            ++ [Event.PutData msg.To
              (respMessg env round rs inMsg msg (combProof round round.StampProofs[i]))] ++ ex
            ++ [Event.dbg 2 "Sent signature response back to client"]) := by
      rw [broadcastLoop]
      simp only [List.getElem?_eq_getElem hpi, List.getElem?_eq_getElem hli, hrs, hput]
    rw [hloop]
    refine ⟨hstep.1, ?_, ?_⟩
    · rw [hstep.2.1, List.drop_eq_getElem_cons hpi]
      simp only [deliveries_append, hdex, List.zipWith_cons_cons, combProof, deliveries_check]
      simp [deliveries, deliveryOf]
    · rw [hstep.2.2, List.drop_eq_getElem_cons hpi, List.drop_eq_getElem_cons hli]
      simp only [verdicts_append, hvex, List.zipWith_cons_cons, combProof, verdicts_check,
        List.length_cons, List.take_succ_cons]
      simp [verdicts, verdictOf]

theorem filterMap_zipWith_some {α β γ δ : Type} (f : α → β → γ) (g : γ → Option δ)
    (k : α → β → δ) (hk : ∀ a b, g (f a b) = some (k a b)) :
    ∀ (l₁ : List α) (l₂ : List β),
      (List.zipWith f l₁ l₂).filterMap g = List.zipWith k l₁ l₂
  | [], _ => by simp
  | _ :: _, [] => by simp
  | a :: l₁, b :: l₂ => by
    simp [List.filterMap_cons, hk, filterMap_zipWith_some f g k hk l₁ l₂]

/-- What `SignatureBroadcast` does on a deliverable round: it returns nil, leaves the
round as it is, attempts one delivery per queue entry and logs one verdict per entry. -/
theorem SignatureBroadcast_spec (env : Env) (round : RoundStamper) (inMsg : SigningMessage)
    (rs : RoundStructure) (hrs : round.RoundStructure = some rs) (h : Deliverable round) :
    (SignatureBroadcast env round inMsg).outcome = Outcome.returned none ∧
    deliveries (SignatureBroadcast env round inMsg).trace =
      List.zipWith (fun msg p => (msg.To, respMessg env round rs inMsg msg (round.Proof ++ p)))
        round.Queue round.StampProofs ∧
    verdicts (SignatureBroadcast env round inMsg).trace =
      (List.zipWith (fun leaf p => env.CheckProof rs.suite round.MTRoot leaf (round.Proof ++ p))
        round.StampLeaves round.StampProofs).take round.Queue.length := by
  obtain ⟨_, hl, hp, hc⟩ := h
  have := broadcastLoop_spec env round inMsg rs hrs round.Queue 0 []
    (by omega) (by omega) hc
  simpa [SignatureBroadcast, deliveries, verdicts] using this

/-- The proofs sent by `SignatureBroadcast` on a deliverable round. -/
theorem sentProofs_SignatureBroadcast (env : Env) (round : RoundStamper)
    (inMsg : SigningMessage) (h : Deliverable round) :
    sentProofs (SignatureBroadcast env round inMsg).trace =
      List.zipWith (fun (_ : ReplyMessage) p => round.Proof ++ p)
        round.Queue round.StampProofs := by
  obtain ⟨rs, hrs⟩ := Option.isSome_iff_exists.mp h.1
  rw [sentProofs, (SignatureBroadcast_spec env round inMsg rs hrs h).2.1]
  exact filterMap_zipWith_some
    (fun (msg : ReplyMessage) (p : Proof) =>
      (msg.To, respMessg env round rs inMsg msg (round.Proof ++ p)))
    (fun d => d.2.Srep.map fun srep => srep.Prf)
    (fun _ p => round.Proof ++ p) (fun _ _ => rfl) _ _

/-! ## C1: order of the composed proof -/

/-- C1, as stated, fails: on the example round the proof sent for request 0 is the
inherited path `[[1]]` followed by the local proof `[[2]]`, not the local proof
followed by the inherited path. -/
theorem C1_counterexample :
    Deliverable roundEx ∧
    roundEx.StampProofs[0]? = some [[2]] ∧ roundEx.Proof = [[1]] ∧
    (sentProofs (SignatureBroadcast envEx roundEx inEx).trace)[0]? = some [[1], [2]] ∧
    (sentProofs (SignatureBroadcast envEx roundEx inEx).trace)[0]? ≠
      (roundEx.StampProofs[0]?).map (fun p => p ++ roundEx.Proof) := by
  decide

/-- C1, amended: on a deliverable round, for every request `i` of the queue the proof
that `SignatureBroadcast` puts into the response (field `Prf`) is `round.Proof` (the
inherited path) followed by `StampProofs[i]` (the local proof), in that order; where
`round.Proof` is empty, as at the root, it is exactly `StampProofs[i]`. -/
theorem C1_composed_proof_inherited_then_local (env : Env) (round : RoundStamper)
    (inMsg : SigningMessage) (h : Deliverable round) (i : Nat)
    (hi : i < round.Queue.length) :
    ∃ p, round.StampProofs[i]? = some p ∧
      (sentProofs (SignatureBroadcast env round inMsg).trace)[i]? = some (round.Proof ++ p) ∧
      (round.Proof = [] →
        (sentProofs (SignatureBroadcast env round inMsg).trace)[i]? = some p) := by
  have hp : i < round.StampProofs.length := lt_of_lt_of_le hi h.2.2.1
  have hsent : (sentProofs (SignatureBroadcast env round inMsg).trace)[i]? =
      some (round.Proof ++ round.StampProofs[i]) := by
    rw [sentProofs_SignatureBroadcast env round inMsg h, List.getElem?_zipWith_eq_some]
    exact ⟨round.Queue[i], round.StampProofs[i], List.getElem?_eq_getElem hi,
      List.getElem?_eq_getElem hp, rfl⟩
  refine ⟨round.StampProofs[i], List.getElem?_eq_getElem hp, hsent, ?_⟩
  intro hnil
  rw [hsent, hnil, List.nil_append]

theorem C1_composed_proof_inherited_then_local_witness :
    Deliverable roundEx ∧ 1 < roundEx.Queue.length ∧
    ∃ p, roundEx.StampProofs[1]? = some p ∧
      (sentProofs (SignatureBroadcast envEx roundEx inEx).trace)[1]? =
        some (roundEx.Proof ++ p) ∧
      (roundEx.Proof = [] →
        (sentProofs (SignatureBroadcast envEx roundEx inEx).trace)[1]? = some p) :=
  ⟨by decide, by decide,
    C1_composed_proof_inherited_then_local envEx roundEx inEx (by decide) 1 (by decide)⟩

/-! ## C2: the self-verification does not gate the response -/

/-- C2, as stated, fails: on the example round `CheckProof` rejects the composed proof
of request 0, the failure is logged, and the response carrying that proof is handed
to the client all the same. -/
theorem C2_counterexample :
    Deliverable roundEx ∧
    envEx.CheckProof "s" roundEx.MTRoot [0] [[1], [2]] = false ∧
    (verdicts (SignatureBroadcast envEx roundEx inEx).trace)[0]? = some false ∧
    (deliveries (SignatureBroadcast envEx roundEx inEx).trace)[0]? =
      some ("d", respMessg envEx roundEx
        { isRoot := false, roundNbr := 1, viewNbr := 0, name := "node", suite := "s" }
        inEx { Val := [0], To := "d", ReqNo := 7 } [[1], [2]]) := by
  decide

/-- C2, amended: on a deliverable round, for every request `i` of the queue
`SignatureBroadcast` hands the response with the composed proof to the client
`Queue[i].To` whatever `CheckProof(MTRoot, StampLeaves[i], composed proof i)` returns;
the result of the check is only logged (the `i`-th verdict of the trace). -/
theorem C2_response_sent_whatever_the_check (env : Env) (round : RoundStamper)
    (inMsg : SigningMessage) (h : Deliverable round) (i : Nat)
    (hi : i < round.Queue.length) :
    ∃ rs msg leaf p, round.RoundStructure = some rs ∧ round.Queue[i]? = some msg ∧
      round.StampLeaves[i]? = some leaf ∧ round.StampProofs[i]? = some p ∧
      (deliveries (SignatureBroadcast env round inMsg).trace)[i]? =
        some (msg.To, respMessg env round rs inMsg msg (round.Proof ++ p)) ∧
      (verdicts (SignatureBroadcast env round inMsg).trace)[i]? =
        some (env.CheckProof rs.suite round.MTRoot leaf (round.Proof ++ p)) := by
  obtain ⟨rs, hrs⟩ := Option.isSome_iff_exists.mp h.1
  have hl : i < round.StampLeaves.length := lt_of_lt_of_le hi h.2.1
  have hp : i < round.StampProofs.length := lt_of_lt_of_le hi h.2.2.1
  obtain ⟨_, hd, hv⟩ := SignatureBroadcast_spec env round inMsg rs hrs h
  refine ⟨rs, round.Queue[i], round.StampLeaves[i], round.StampProofs[i], hrs,
    List.getElem?_eq_getElem hi, List.getElem?_eq_getElem hl, List.getElem?_eq_getElem hp,
    ?_, ?_⟩
  · rw [hd, List.getElem?_zipWith_eq_some]
    exact ⟨round.Queue[i], round.StampProofs[i], List.getElem?_eq_getElem hi,
      List.getElem?_eq_getElem hp, rfl⟩
  · rw [hv, List.getElem?_take_of_lt hi, List.getElem?_zipWith_eq_some]
    exact ⟨round.StampLeaves[i], round.StampProofs[i], List.getElem?_eq_getElem hl,
      List.getElem?_eq_getElem hp, rfl⟩

theorem C2_response_sent_whatever_the_check_witness :
    Deliverable roundEx ∧ 0 < roundEx.Queue.length ∧
    ∃ rs msg leaf p, roundEx.RoundStructure = some rs ∧ roundEx.Queue[0]? = some msg ∧
      roundEx.StampLeaves[0]? = some leaf ∧ roundEx.StampProofs[0]? = some p ∧
      (deliveries (SignatureBroadcast envEx roundEx inEx).trace)[0]? =
        some (msg.To, respMessg envEx roundEx rs inEx msg (roundEx.Proof ++ p)) ∧
      (verdicts (SignatureBroadcast envEx roundEx inEx).trace)[0]? =
        some (envEx.CheckProof rs.suite roundEx.MTRoot leaf (roundEx.Proof ++ p)) :=
  ⟨by decide, by decide,
    C2_response_sent_whatever_the_check envEx roundEx inEx (by decide) 0 (by decide)⟩

/-! ## C8: one delivery attempt per request -/

/-- C8: on a round whose queue entries all have their leaf and their proof, and whose
clients all have a connection, whatever each `PutData` returns (nil, `ErrClosed`,
`ErrNotEstablished` or another error), `SignatureBroadcast` returns nil and makes
exactly `len(Queue)` delivery attempts, the `i`-th addressed to `Queue[i].To`. -/
theorem C8_one_delivery_attempt_per_request (env : Env) (round : RoundStamper)
    (inMsg : SigningMessage) (h : Deliverable round) :
    (SignatureBroadcast env round inMsg).outcome = Outcome.returned none ∧
    (deliveries (SignatureBroadcast env round inMsg).trace).length = round.Queue.length ∧
    (deliveries (SignatureBroadcast env round inMsg).trace).map (fun d => d.1) =
      round.Queue.map (fun msg => msg.To) := by
  obtain ⟨rs, hrs⟩ := Option.isSome_iff_exists.mp h.1
  obtain ⟨ho, hd, _⟩ := SignatureBroadcast_spec env round inMsg rs hrs h
  have hp : round.Queue.length ≤ round.StampProofs.length := h.2.2.1
  refine ⟨ho, ?_, ?_⟩
  · rw [hd, List.length_zipWith]
    omega
  · rw [hd]
    apply List.ext_getElem?
    intro i
    simp only [List.getElem?_map, List.getElem?_zipWith']
    by_cases hi : i < round.Queue.length
    · have hpi : i < round.StampProofs.length := lt_of_lt_of_le hi hp
      simp [List.getElem?_eq_getElem hi, List.getElem?_eq_getElem hpi]
    · simp [List.getElem?_eq_none (Nat.le_of_not_lt hi)]

theorem C8_one_delivery_attempt_per_request_witness :
    Deliverable roundEx ∧
    (SignatureBroadcast envEx roundEx inEx).outcome = Outcome.returned none ∧
    (deliveries (SignatureBroadcast envEx roundEx inEx).trace).length =
      roundEx.Queue.length ∧
    (deliveries (SignatureBroadcast envEx roundEx inEx).trace).map (fun d => d.1) =
      roundEx.Queue.map (fun msg => msg.To) :=
  ⟨by decide, C8_one_delivery_attempt_per_request envEx roundEx inEx (by decide)⟩

/-! ## Facts about QueueSet -/

/-- The loop of `QueueSet` on requests that all carry a stamp request does not panic. -/
theorem fillQueue_isSome :
    ∀ (l : List MustReplyMessage), (∀ q ∈ l, q.Tsm.Sreq.isSome = true) →
      ∃ replies, fillQueue l = some replies
  | [], _ => ⟨[], rfl⟩
  | q :: qs, h => by
    obtain ⟨replies, hf⟩ := fillQueue_isSome qs (fun x hx => h x (List.mem_cons_of_mem _ hx))
    obtain ⟨sreq, hs⟩ := Option.isSome_iff_exists.mp (h q (List.mem_cons_self _ _))
    exact ⟨{ Val := sreq.Val, To := q.To, ReqNo := q.Tsm.ReqNo % 256 } :: replies, by
      simp [fillQueue, replyOf, hs, hf]⟩

/-- The loop of `QueueSet` builds one reply per request, in order, with the payload,
the client and the number modulo 256 of the request. -/
theorem fillQueue_keys :
    ∀ (l : List MustReplyMessage) (replies : List ReplyMessage),
      fillQueue l = some replies → replies.map replyKey = l.map requestKey
  | [], replies, h => by
    simp only [fillQueue, Option.some.injEq] at h
    subst h
    rfl
  | q :: qs, replies, h => by
    rw [fillQueue] at h
    cases hq : q.Tsm.Sreq with
    | none => simp [replyOf, hq] at h
    | some sreq =>
      cases hf : fillQueue qs with
      | none => simp [replyOf, hq, hf] at h
      | some rs =>
        simp only [replyOf, hq, hf, Option.some.injEq] at h
        subst h
        simp [replyKey, requestKey, hq, fillQueue_keys qs rs hf]

/-- The method `QueueSet` on buffers with two distinct valid indices: the buffers end
as the old ones with `READING` emptied and `PROCESSING` holding the old `READING`
buffer, and the round queue is filled from the old `READING` buffer. -/
theorem QueueSet_eq (env : Env) (round : RoundStamper) (Queue : List (List MustReplyMessage))
    (r p : List MustReplyMessage) (hr : Queue[env.READING]? = some r)
    (hp : Queue[env.PROCESSING]? = some p) (hne : env.READING ≠ env.PROCESSING) :
    QueueSet env round Queue =
      (fillQueue r).map fun q =>
        ({ round with Queue := q },
          ((Queue.set env.READING p).set env.PROCESSING r).set env.READING []) := by
  have hR : env.READING < Queue.length := (List.getElem?_eq_some.mp hr).1
  have hP : env.PROCESSING < Queue.length := (List.getElem?_eq_some.mp hp).1
  have h1 : ((Queue.set env.READING p).set env.PROCESSING r)[env.READING]? = some p := by
    simp [List.getElem?_set, hne, Ne.symm hne, hR]
  have h2 : (((Queue.set env.READING p).set env.PROCESSING r).set env.READING
      [])[env.PROCESSING]? = some r := by
    simp [List.getElem?_set, hne, Ne.symm hne, hP]
  unfold QueueSet
  simp only [hr, hp, h1, List.take_zero, h2]
  cases fillQueue r <;> rfl

/-- The example buffers: two requests are waiting in `READING`, and `PROCESSING`
still holds a request of the previous round. -/
theorem buffersEx_reading :
    ([[reqA, reqB], [reqC]] : List (List MustReplyMessage))[envEx.READING]? =
      some [reqA, reqB] := by
  decide

theorem buffersEx_processing :
    ([[reqA, reqB], [reqC]] : List (List MustReplyMessage))[envEx.PROCESSING]? =
      some [reqC] := by
  decide

/-! ## C3: the round receives the previously incoming requests, in order -/

/-- C3: on buffers with two distinct slots, `READING` holding the requests `r`, the
method `QueueSet` gives the round a queue of the same length as `r`, whose `i`-th
entry carries the payload (`Tsm.Sreq.Val`) and the client (`To`) of `r[i]`. -/
theorem C3_round_queue_is_previous_reading (env : Env) (round : RoundStamper)
    (Queue : List (List MustReplyMessage)) (r p : List MustReplyMessage)
    (hr : Queue[env.READING]? = some r) (hp : Queue[env.PROCESSING]? = some p)
    (hne : env.READING ≠ env.PROCESSING) (hreq : ∀ q ∈ r, q.Tsm.Sreq.isSome = true) :
    ∃ round1 Queue1, QueueSet env round Queue = some (round1, Queue1) ∧
      round1.Queue.length = r.length ∧
      ∀ i (hi : i < r.length), ∃ rep sreq, round1.Queue[i]? = some rep ∧
        r[i].Tsm.Sreq = some sreq ∧ rep.Val = sreq.Val ∧ rep.To = r[i].To := by
  obtain ⟨replies, hf⟩ := fillQueue_isSome r hreq
  have hk := fillQueue_keys r replies hf
  have hlen : replies.length = r.length := by
    simpa using congrArg List.length hk
  refine ⟨{ round with Queue := replies },
    ((Queue.set env.READING p).set env.PROCESSING r).set env.READING [], ?_, hlen, ?_⟩
  · rw [QueueSet_eq env round Queue r p hr hp hne, hf]
    rfl
  · intro i hi
    have hi1 : i < replies.length := by omega
    have hidx := congrArg (fun l => l[i]?) hk
    simp only [List.getElem?_map, List.getElem?_eq_getElem hi,
      List.getElem?_eq_getElem hi1, Option.map_some', Option.some.injEq, replyKey,
      requestKey, Prod.mk.injEq] at hidx
    exact ⟨replies[i], { Val := replies[i].Val }, List.getElem?_eq_getElem hi1,
      hidx.1.symm, rfl, hidx.2.1⟩

theorem C3_round_queue_is_previous_reading_witness :
    ∃ round1 Queue1,
      QueueSet envEx roundEx [[reqA, reqB], [reqC]] = some (round1, Queue1) ∧
      round1.Queue.length = [reqA, reqB].length ∧
      ∀ i (hi : i < [reqA, reqB].length), ∃ rep sreq, round1.Queue[i]? = some rep ∧
        [reqA, reqB][i].Tsm.Sreq = some sreq ∧ rep.Val = sreq.Val ∧
        rep.To = [reqA, reqB][i].To :=
  C3_round_queue_is_previous_reading envEx roundEx [[reqA, reqB], [reqC]] [reqA, reqB]
    [reqC] buffersEx_reading buffersEx_processing (by decide) (by decide)

/-! ## C4: the buffers after QueueSet -/

/-- C4: on buffers with two distinct slots, after `QueueSet` the buffer
`Queue[READING]` is empty and `Queue[PROCESSING]` holds exactly the previous contents
`r` of `Queue[READING]`, whatever `Queue[PROCESSING]` held before. -/
theorem C4_reading_emptied_processing_is_previous_reading (env : Env)
    (round : RoundStamper) (Queue : List (List MustReplyMessage))
    (r p : List MustReplyMessage)
    (hr : Queue[env.READING]? = some r) (hp : Queue[env.PROCESSING]? = some p)
    (hne : env.READING ≠ env.PROCESSING) (hreq : ∀ q ∈ r, q.Tsm.Sreq.isSome = true) :
    ∃ round1 Queue1, QueueSet env round Queue = some (round1, Queue1) ∧
      Queue1[env.READING]? = some [] ∧ Queue1[env.PROCESSING]? = some r ∧
      Queue1.length = Queue.length := by
  obtain ⟨replies, hf⟩ := fillQueue_isSome r hreq
  have hR : env.READING < Queue.length := (List.getElem?_eq_some.mp hr).1
  have hP : env.PROCESSING < Queue.length := (List.getElem?_eq_some.mp hp).1
  refine ⟨{ round with Queue := replies },
    ((Queue.set env.READING p).set env.PROCESSING r).set env.READING [], ?_, ?_, ?_, ?_⟩
  · rw [QueueSet_eq env round Queue r p hr hp hne, hf]
    rfl
  · simp [List.getElem?_set, hR]
  · simp [List.getElem?_set, hne, Ne.symm hne, hP]
  · simp

theorem C4_reading_emptied_processing_is_previous_reading_witness :
    ∃ round1 Queue1,
      QueueSet envEx roundEx [[reqA, reqB], [reqC]] = some (round1, Queue1) ∧
      Queue1[envEx.READING]? = some [] ∧ Queue1[envEx.PROCESSING]? = some [reqA, reqB] ∧
      Queue1.length = ([[reqA, reqB], [reqC]] : List (List MustReplyMessage)).length :=
  C4_reading_emptied_processing_is_previous_reading envEx roundEx [[reqA, reqB], [reqC]]
    [reqA, reqB] [reqC] buffersEx_reading buffersEx_processing (by decide) (by decide)

/-! ## C5: every request is delivered to exactly one round -/

/-- The runs of a sequence of operations, put end to end, are the enqueued requests. -/
theorem flatten_runs : ∀ (ops : List Op), (runs ops).flatten = enqueued ops
  | [] => rfl
  | Op.enqueue m :: ops => by
    have ih := flatten_runs ops
    simp only [runs, List.flatten_cons] at ih
    simp [runs, segments, enqueued, ih]
  | Op.queueSet :: ops => by
    have ih := flatten_runs ops
    simp only [runs, List.flatten_cons] at ih
    simp [runs, segments, enqueued, ih]

/-- The queues of the rounds, put end to end, keep the keys of the requests of the
runs they were filled from. -/
theorem flatten_keys :
    ∀ (delivered : List (List MustReplyMessage)) (rounds : List (List ReplyMessage)),
      delivered.map fillQueue = rounds.map some →
      rounds.flatten.map replyKey = delivered.flatten.map requestKey
  | [], [], _ => rfl
  | [], _ :: _, h => by simp at h
  | _ :: _, [], h => by simp at h
  | d :: ds, q :: qs, h => by
    simp only [List.map_cons, List.cons.injEq] at h
    simp [fillQueue_keys d q h.1, flatten_keys ds qs h.2]

/-- A sequence of operations run from buffers whose `READING` slot holds `r`: no
operation panics, each `QueueSet` gives its round the run of requests that ends at
it (the first one starting with `r`), and the last run is left in `READING`. -/
theorem run_spec (env : Env) (peer : Peer) (hne : env.READING ≠ env.PROCESSING) :
    ∀ (ops : List Op) (s : NodeState) (r p : List MustReplyMessage),
      s.Queue[env.READING]? = some r → s.Queue[env.PROCESSING]? = some p →
      (∀ q ∈ r, q.Tsm.Sreq.isSome = true) →
      (∀ q ∈ enqueued ops, q.Tsm.Sreq.isSome = true) →
      ∃ s1 delivered pending, run env peer s ops = some s1 ∧
        (r ++ (segments ops).1) :: (segments ops).2 = delivered ++ [pending] ∧
        s1.rounds.map some = s.rounds.map some ++ delivered.map fillQueue ∧
        s1.Queue[env.READING]? = some pending
  | [], s, r, p, hr, _, _, _ =>
    ⟨s, [], r, rfl, by simp [segments], by simp, hr⟩
  | Op.enqueue m :: ops, s, r, p, hr, hp, hreq, hops => by
    have hR : env.READING < s.Queue.length := (List.getElem?_eq_some.mp hr).1
    have hP : env.PROCESSING < s.Queue.length := (List.getElem?_eq_some.mp hp).1
    have hm : m.Tsm.Sreq.isSome = true := hops m (by simp [enqueued])
    obtain ⟨s1, delivered, pending, hrun, hseg, hrounds, hpend⟩ :=
      run_spec env peer hne ops { s with Queue := s.Queue.set env.READING (r ++ [m]) }
        (r ++ [m]) p (by simp [List.getElem?_set, hR])
        (by simp [List.getElem?_set, hne, hp])
        (by
          intro q hq
          rcases List.mem_append.mp hq with h | h
          · exact hreq q h
          · rw [List.mem_singleton.mp h]
            exact hm)
        (fun q hq => hops q (by simp [enqueued, hq]))
    refine ⟨s1, delivered, pending, ?_, ?_, hrounds, hpend⟩
    · simp only [run, step, enqueue, hr]
      exact hrun
    · simpa [segments, List.append_assoc] using hseg
  | Op.queueSet :: ops, s, r, p, hr, hp, hreq, hops => by
    have hR : env.READING < s.Queue.length := (List.getElem?_eq_some.mp hr).1
    have hP : env.PROCESSING < s.Queue.length := (List.getElem?_eq_some.mp hp).1
    obtain ⟨replies, hf⟩ := fillQueue_isSome r hreq
    obtain ⟨s1, delivered, pending, hrun, hseg, hrounds, hpend⟩ :=
      run_spec env peer hne ops
        { Queue := ((s.Queue.set env.READING p).set env.PROCESSING r).set env.READING [],
          rounds := s.rounds ++ [replies] }
        [] r (by simp [List.getElem?_set, hR])
        (by simp [List.getElem?_set, hne, Ne.symm hne, hP])
        (by simp)
        (fun q hq => hops q (by simpa [enqueued] using hq))
    refine ⟨s1, r :: delivered, pending, ?_, ?_, ?_, hpend⟩
    · simp only [run, step, QueueSet_eq env (NewRoundStamper peer) s.Queue r p hr hp hne, hf,
        Option.map_some']
      exact hrun
    · simp only [List.nil_append] at hseg
      simp [segments, hseg]
    · rw [hrounds]
      simp [hf]

/-- C5: a finite sequence of enqueues and `QueueSet` calls (each by a fresh round) on
buffers with two distinct, initially empty slots runs to its end; the runs of the
sequence split into the ones closed by a `QueueSet` and the last one; the queue of the
`k`-th round is filled from exactly the `k`-th closed run (the requests enqueued since
the `QueueSet` before); the last run is what `Queue[READING]` still holds; and the
queues of all rounds put end to end, followed by the pending requests, are the
enqueued requests, each once and in order of arrival. -/
theorem C5_each_request_in_exactly_one_round (env : Env) (peer : Peer)
    (Queue : List (List MustReplyMessage)) (ops : List Op)
    (hr : Queue[env.READING]? = some []) (hp : Queue[env.PROCESSING]? = some [])
    (hne : env.READING ≠ env.PROCESSING)
    (hops : ∀ q ∈ enqueued ops, q.Tsm.Sreq.isSome = true) :
    ∃ s1 delivered pending,
      run env peer { Queue := Queue, rounds := [] } ops = some s1 ∧
      runs ops = delivered ++ [pending] ∧
      s1.rounds.map some = delivered.map fillQueue ∧
      s1.Queue[env.READING]? = some pending ∧
      s1.rounds.flatten.map replyKey ++ pending.map requestKey =
        (enqueued ops).map requestKey := by
  obtain ⟨s1, delivered, pending, hrun, hseg, hrounds, hpend⟩ :=
    run_spec env peer hne ops { Queue := Queue, rounds := [] } [] [] hr hp (by simp) hops
  simp only [List.nil_append, List.map_nil] at hseg hrounds
  refine ⟨s1, delivered, pending, hrun, hseg, hrounds, hpend, ?_⟩
  rw [flatten_keys delivered s1.rounds hrounds.symm, ← List.map_append, ← flatten_runs ops]
  simp [runs, hseg]

theorem C5_each_request_in_exactly_one_round_witness :
    ∃ s1 delivered pending,
      run envEx peerEx { Queue := [[], []], rounds := [] } opsEx = some s1 ∧
      runs opsEx = delivered ++ [pending] ∧
      s1.rounds.map some = delivered.map fillQueue ∧
      s1.Queue[envEx.READING]? = some pending ∧
      s1.rounds.flatten.map replyKey ++ pending.map requestKey =
        (enqueued opsEx).map requestKey :=
  C5_each_request_in_exactly_one_round envEx peerEx [[], []] opsEx (by decide) (by decide)
    (by decide) (by decide)

/-! ## C6 and C7: the leaves of Commitment -/

/-- C6: when `round.Queue` is empty, `Commitment` returns nil, sets `StampRoot` to
`hashid.Size` bytes, all zero, and sets `StampProofs` to one proof, the empty one. -/
theorem C6_empty_queue_sentinel_root (env : Env) (round : RoundStamper)
    (hq : round.Queue.length = 0) :
    (Commitment env round).outcome = Outcome.returned none ∧
    (Commitment env round).round.StampRoot.length = env.Size ∧
    (∀ b ∈ (Commitment env round).round.StampRoot, b = 0) ∧
    (Commitment env round).round.StampProofs.length = 1 ∧
    (Commitment env round).round.StampProofs = [[]] := by
  simp only [Commitment, hq, if_true, List.length_replicate, List.length_singleton,
    true_and, and_true]
  intro b hb
  exact List.eq_of_mem_replicate hb

theorem C6_empty_queue_sentinel_root_witness :
    roundEmpty.Queue.length = 0 ∧
    (Commitment envEx roundEmpty).outcome = Outcome.returned none ∧
    (Commitment envEx roundEmpty).round.StampRoot.length = envEx.Size ∧
    (∀ b ∈ (Commitment envEx roundEmpty).round.StampRoot, b = 0) ∧
    (Commitment envEx roundEmpty).round.StampProofs.length = 1 ∧
    (Commitment envEx roundEmpty).round.StampProofs = [[]] :=
  ⟨by decide, C6_empty_queue_sentinel_root envEx roundEmpty (by decide)⟩

/-- What `Commitment` leaves in the round when the queue is not empty and the round
structure is set: the leaves are the payloads of the queue, and the root and the
proofs are what `ProofTree` returns for these leaves. -/
theorem Commitment_round (env : Env) (round : RoundStamper) (rs : RoundStructure)
    (hq : round.Queue.length ≠ 0) (hrs : round.RoundStructure = some rs) :
    (Commitment env round).round =
      { round with
        StampLeaves := round.Queue.map fun msg => msg.Val,
        StampRoot := (env.ProofTree rs.suite (round.Queue.map fun msg => msg.Val)).1,
        StampProofs := (env.ProofTree rs.suite (round.Queue.map fun msg => msg.Val)).2 } := by
  simp only [Commitment, hq, if_false, hrs]
  split
  · split <;> rfl
  · rfl

/-- The leaves `Commitment` leaves in the round when the queue is not empty, whether
it returns or panics. -/
theorem Commitment_leaves (env : Env) (round : RoundStamper)
    (hq : round.Queue.length ≠ 0) :
    (Commitment env round).round.StampLeaves = round.Queue.map fun msg => msg.Val := by
  cases hrs : round.RoundStructure with
  | none => simp [Commitment, hq, hrs]
  | some rs => rw [Commitment_round env round rs hq hrs]

/-- C7: for every non-empty `round.Queue`, the leaf list that `Commitment` stores in
`StampLeaves` has `len(Queue)` entries and `StampLeaves[i]` is `Queue[i].Val` for
every `i` (equal payloads give separate leaves), and this list is what is passed to
`ProofTree`: on an announced round `StampRoot` and `StampProofs` are the result of
`ProofTree` on exactly `StampLeaves`. -/
theorem C7_one_leaf_per_request_in_queue_order (env : Env) (round : RoundStamper)
    (hq : round.Queue.length ≠ 0) :
    (Commitment env round).round.StampLeaves.length = round.Queue.length ∧
    (∀ i (hi : i < round.Queue.length),
      (Commitment env round).round.StampLeaves[i]? = some round.Queue[i].Val) ∧
    (∀ rs, round.RoundStructure = some rs →
      ((Commitment env round).round.StampRoot, (Commitment env round).round.StampProofs) =
        env.ProofTree rs.suite (Commitment env round).round.StampLeaves) := by
  refine ⟨?_, ?_, ?_⟩
  · rw [Commitment_leaves env round hq, List.length_map]
  · intro i hi
    rw [Commitment_leaves env round hq]
    simp [List.getElem?_eq_getElem hi]
  · intro rs hrs
    rw [Commitment_round env round rs hq hrs]

theorem C7_one_leaf_per_request_in_queue_order_witness :
    roundEx.Queue.length ≠ 0 ∧
    (Commitment envEx roundEx).round.StampLeaves.length = roundEx.Queue.length ∧
    (∀ i (hi : i < roundEx.Queue.length),
      (Commitment envEx roundEx).round.StampLeaves[i]? = some roundEx.Queue[i].Val) ∧
    (∀ rs, roundEx.RoundStructure = some rs →
      ((Commitment envEx roundEx).round.StampRoot,
          (Commitment envEx roundEx).round.StampProofs) =
        envEx.ProofTree rs.suite (Commitment envEx roundEx).round.StampLeaves) :=
  ⟨by decide, C7_one_leaf_per_request_in_queue_order envEx roundEx (by decide)⟩

/-! ## Facts about the timestamp encoding -/

theorem leUint64_binaryWrite_nat (u : Nat) (hu : u < 2 ^ 64) :
    leUint64 ((List.range 8).map fun i => (Fin.ofNat (u / 256 ^ i) : Byte)) = u := by
  have h8 : List.range 8 = [0, 1, 2, 3, 4, 5, 6, 7] := by decide
  rw [h8]
  simp only [leUint64, List.map, List.take, List.enum, List.enumFrom, List.sum_cons,
    List.sum_nil, Fin.ofNat]
  norm_num
  omega

theorem binaryWrite_length (t : Int) : (binaryWrite t).length = 8 := by
  simp [binaryWrite]

theorem leUint64_binaryWrite (t : Int) :
    leUint64 (binaryWrite t) = (t % 2 ^ 64).toNat := by
  have hu : (t % 2 ^ 64).toNat < 2 ^ 64 := by
    norm_num
    omega
  exact leUint64_binaryWrite_nat _ hu

/-- The value `uint64(t)` of a signed 64-bit `t` is its unsigned reading in two's
complement. -/
theorem twos_complement (t : Int) (h1 : -2 ^ 63 ≤ t) (h2 : t < 2 ^ 63) :
    (((t % 2 ^ 64).toNat : Nat) : Int) = if 0 ≤ t then t else t + 2 ^ 64 := by
  norm_num at h1 h2 ⊢
  split <;> omega

theorem binaryRead_binaryWrite (t : Int) (h1 : -2 ^ 63 ≤ t) (h2 : t < 2 ^ 63) :
    binaryRead (binaryWrite t) = some t := by
  have hv := twos_complement t h1 h2
  simp only [binaryRead, binaryWrite_length, lt_irrefl, if_false, leUint64_binaryWrite,
    Option.some.injEq]
  norm_num at h1 h2 hv ⊢
  split at hv <;> split <;> omega

theorem binaryRead_short (msg : List Byte) (h : msg.length < 8) : binaryRead msg = none := by
  simp [binaryRead, h]

/-! ## C9: an announcement that cannot be decoded -/

/-- C9, as stated, fails: a non-root node that receives a payload of three bytes
logs the failure and returns nil, with the timestamp 0. -/
theorem C9_counterexample :
    (envEx.NewRoundStructure 0 1).isRoot = false ∧
    binaryRead [1, 2, 3] = none ∧
    (Announcement envEx roundEx 0 1
      { inEx with Am := { Message := [1, 2, 3], RoundType := "" } } 5).outcome =
      Outcome.returned none ∧
    (Announcement envEx roundEx 0 1
      { inEx with Am := { Message := [1, 2, 3], RoundType := "" } } 5).round.Timestamp = 0 := by
  decide

/-- C9, amended: for every non-root node, if the payload of the received announcement
has fewer than 8 bytes (it cannot be decoded as a timestamp), `Announcement` logs the
failure at level 1 and returns nil: the round goes on. -/
theorem C9_decode_failure_is_logged_not_returned (env : Env) (round : RoundStamper)
    (viewNbr roundNbr : Int) (inMsg : SigningMessage) (now : Int)
    (hnon : (env.NewRoundStructure viewNbr roundNbr).isRoot = false)
    (hshort : inMsg.Am.Message.length < 8) :
    (Announcement env round viewNbr roundNbr inMsg now).outcome = Outcome.returned none ∧
    (Announcement env round viewNbr roundNbr inMsg now).trace =
      [Event.dbg 3 "New roundstamper announcement in round-nbr",
        Event.dbg 1 "Unmashaling timestamp has failed"] := by
  simp [Announcement, hnon, binaryRead_short _ hshort]

theorem C9_decode_failure_is_logged_not_returned_witness :
    (Announcement envEx roundEx 0 1
      { inEx with Am := { Message := [1, 2, 3], RoundType := "" } } 5).outcome =
      Outcome.returned none ∧
    (Announcement envEx roundEx 0 1
      { inEx with Am := { Message := [1, 2, 3], RoundType := "" } } 5).trace =
      [Event.dbg 3 "New roundstamper announcement in round-nbr",
        Event.dbg 1 "Unmashaling timestamp has failed"] :=
  C9_decode_failure_is_logged_not_returned envEx roundEx 0 1
    { inEx with Am := { Message := [1, 2, 3], RoundType := "" } } 5 (by decide) (by decide)

/-! ## C10: the timestamp survives the announcement -/

/-- C10: for every signed 64-bit timestamp `t`, the payload the root writes for `t` has
exactly 8 bytes, which read least significant byte first give the two's complement
value of `t`, and `Announcement` of a non-root node applied to the message the root
leaves sets its `Timestamp` to `t`. -/
theorem C10_timestamp_roundtrip (env env2 : Env) (round round2 : RoundStamper)
    (viewNbr roundNbr viewNbr2 roundNbr2 : Int) (inMsg : SigningMessage) (t now2 : Int)
    (h1 : -2 ^ 63 ≤ t) (h2 : t < 2 ^ 63)
    (hroot : (env.NewRoundStructure viewNbr roundNbr).isRoot = true)
    (hnon : (env2.NewRoundStructure viewNbr2 roundNbr2).isRoot = false) :
    (Announcement env round viewNbr roundNbr inMsg t).round.Timestamp = t ∧
    (Announcement env round viewNbr roundNbr inMsg t).inMsg.Am.Message.length = 8 ∧
    ((leUint64 (Announcement env round viewNbr roundNbr inMsg t).inMsg.Am.Message : Nat)
      : Int) = (if 0 ≤ t then t else t + 2 ^ 64) ∧
    (Announcement env2 round2 viewNbr2 roundNbr2
      (Announcement env round viewNbr roundNbr inMsg t).inMsg now2).round.Timestamp = t := by
  have hmsg : (Announcement env round viewNbr roundNbr inMsg t).inMsg.Am.Message =
      binaryWrite t := by
    simp [Announcement, hroot]
  refine ⟨by simp [Announcement, hroot], ?_, ?_, ?_⟩
  · rw [hmsg, binaryWrite_length]
  · rw [hmsg, leUint64_binaryWrite, twos_complement t h1 h2]
  · simp only [Announcement, hnon]
    simp only [Announcement, hroot, if_true, binaryRead_binaryWrite t h1 h2]
    simp

theorem C10_timestamp_roundtrip_witness :
    (Announcement envRoot roundEx 0 1 inEx (-2)).round.Timestamp = -2 ∧
    (Announcement envRoot roundEx 0 1 inEx (-2)).inMsg.Am.Message.length = 8 ∧
    ((leUint64 (Announcement envRoot roundEx 0 1 inEx (-2)).inMsg.Am.Message : Nat)
      : Int) = (if (0 : Int) ≤ -2 then -2 else -2 + 2 ^ 64) ∧
    (Announcement envEx roundEmpty 0 1
      (Announcement envRoot roundEx 0 1 inEx (-2)).inMsg 7).round.Timestamp = -2 :=
  C10_timestamp_roundtrip envRoot envEx roundEx roundEmpty 0 1 0 1 inEx (-2) 7
    (by decide) (by decide) (by decide) (by decide)

/-! ## C11: the fields of a response -/

/-- C11: on a deliverable round, the response dispatched for queue entry `i` carries
the `Timestamp` of the round, its `MTRoot` as `MerkleRoot`, the composed proof of the
entry as `Prf`, and `R0_hat`, `C`, `V0_hat`, `X0_hat` of the broadcast message as
`Response`, `Challenge`, `AggCommit`, `AggPublic`; and two responses of the round
differ at most in the sequence number and the proof. -/
theorem C11_response_fields (env : Env) (round : RoundStamper) (inMsg : SigningMessage)
    (h : Deliverable round) :
    (∀ i, i < round.Queue.length →
      ∃ msg p resp srep, round.Queue[i]? = some msg ∧ round.StampProofs[i]? = some p ∧
        (deliveries (SignatureBroadcast env round inMsg).trace)[i]? = some (msg.To, resp) ∧
        resp.Srep = some srep ∧ resp.ReqNo = msg.ReqNo ∧
        srep.Timestamp = round.Timestamp ∧ srep.MerkleRoot = round.MTRoot ∧
        srep.Prf = combProof round p ∧
        srep.Response = inMsg.SBm.R0_hat ∧ srep.Challenge = inMsg.SBm.C ∧
        srep.AggCommit = inMsg.SBm.V0_hat ∧ srep.AggPublic = inMsg.SBm.X0_hat) ∧
    (∀ (i j : Nat) (di dj : String × TimeStampMessage),
      (deliveries (SignatureBroadcast env round inMsg).trace)[i]? = some di →
      (deliveries (SignatureBroadcast env round inMsg).trace)[j]? = some dj →
      withoutSeqAndProof di.2 = withoutSeqAndProof dj.2) := by
  obtain ⟨rs, hrs⟩ := Option.isSome_iff_exists.mp h.1
  obtain ⟨_, hd, _⟩ := SignatureBroadcast_spec env round inMsg rs hrs h
  refine ⟨?_, ?_⟩
  · intro i hi
    have hp : i < round.StampProofs.length := lt_of_lt_of_le hi h.2.2.1
    refine ⟨round.Queue[i], round.StampProofs[i],
      respMessg env round rs inMsg round.Queue[i] (round.Proof ++ round.StampProofs[i]),
      _, List.getElem?_eq_getElem hi, List.getElem?_eq_getElem hp, ?_, rfl, rfl, rfl, rfl,
      rfl, rfl, rfl, rfl, rfl⟩
    rw [hd, List.getElem?_zipWith_eq_some]
    exact ⟨round.Queue[i], round.StampProofs[i], List.getElem?_eq_getElem hi,
      List.getElem?_eq_getElem hp, rfl⟩
  · intro i j di dj hi hj
    rw [hd, List.getElem?_zipWith_eq_some] at hi hj
    obtain ⟨_, _, _, _, rfl⟩ := hi
    obtain ⟨_, _, _, _, rfl⟩ := hj
    rfl

theorem C11_response_fields_witness :
    Deliverable roundEx ∧
    (∀ i, i < roundEx.Queue.length →
      ∃ msg p resp srep, roundEx.Queue[i]? = some msg ∧ roundEx.StampProofs[i]? = some p ∧
        (deliveries (SignatureBroadcast envEx roundEx inEx).trace)[i]? =
          some (msg.To, resp) ∧
        resp.Srep = some srep ∧ resp.ReqNo = msg.ReqNo ∧
        srep.Timestamp = roundEx.Timestamp ∧ srep.MerkleRoot = roundEx.MTRoot ∧
        srep.Prf = combProof roundEx p ∧
        srep.Response = inEx.SBm.R0_hat ∧ srep.Challenge = inEx.SBm.C ∧
        srep.AggCommit = inEx.SBm.V0_hat ∧ srep.AggPublic = inEx.SBm.X0_hat) ∧
    (∀ (i j : Nat) (di dj : String × TimeStampMessage),
      (deliveries (SignatureBroadcast envEx roundEx inEx).trace)[i]? = some di →
      (deliveries (SignatureBroadcast envEx roundEx inEx).trace)[j]? = some dj →
      withoutSeqAndProof di.2 = withoutSeqAndProof dj.2) :=
  ⟨by decide, C11_response_fields envEx roundEx inEx (by decide)⟩

/-! ## C12: the outcomes of a delivery -/

/-- C12: for a connected client and every outcome `err` of `PutData`, the method
`PutToClient` returns normally after the delivery attempt; it closes the connection
exactly when `err` is `ErrClosed`, it logs an error exactly when `err` is an error
other than `ErrClosed` and `ErrNotEstablished`, and on success or `ErrNotEstablished`
it does nothing more. -/
theorem C12_delivery_outcomes (round : RoundStamper) (name : String)
    (data : TimeStampMessage) (tr : List Event) (conn : Conn)
    (h : round.peer.Clients name = some conn) :
    ∃ ex, PutToClient round name data tr = some (tr ++ [Event.PutData name data] ++ ex) ∧
      ex = afterPutData name (conn.PutData tr data) ∧
      (Event.Close name ∈ ex ↔ conn.PutData tr data = PutErr.ErrClosed) ∧
      ((∃ lvl msg, Event.dbg lvl msg ∈ ex) ↔
        (conn.PutData tr data ≠ PutErr.nil ∧ conn.PutData tr data ≠ PutErr.ErrClosed ∧
          conn.PutData tr data ≠ PutErr.ErrNotEstablished)) ∧
      ((conn.PutData tr data = PutErr.nil ∨
          conn.PutData tr data = PutErr.ErrNotEstablished) → ex = []) := by
  refine ⟨afterPutData name (conn.PutData tr data), ?_, rfl, ?_, ?_, ?_⟩
  · unfold PutToClient
    rw [h]
    dsimp only
    generalize conn.PutData tr data = e
    cases e <;> simp [afterPutData]
  · generalize conn.PutData tr data = e
    cases e <;> simp [afterPutData]
  · generalize conn.PutData tr data = e
    cases e <;> simp [afterPutData]
  · generalize conn.PutData tr data = e
    cases e <;> simp [afterPutData]

theorem C12_delivery_outcomes_witness :
    ∃ ex, PutToClient roundBroken "c" respEx [] =
        some ([] ++ [Event.PutData "c" respEx] ++ ex) ∧
      ex = afterPutData "c" (connBroken.PutData [] respEx) ∧
      (Event.Close "c" ∈ ex ↔ connBroken.PutData [] respEx = PutErr.ErrClosed) ∧
      ((∃ lvl msg, Event.dbg lvl msg ∈ ex) ↔
        (connBroken.PutData [] respEx ≠ PutErr.nil ∧
          connBroken.PutData [] respEx ≠ PutErr.ErrClosed ∧
          connBroken.PutData [] respEx ≠ PutErr.ErrNotEstablished)) ∧
      ((connBroken.PutData [] respEx = PutErr.nil ∨
          connBroken.PutData [] respEx = PutErr.ErrNotEstablished) → ex = []) :=
  C12_delivery_outcomes roundBroken "c" respEx [] connBroken rfl

/-! ## C13: a round without requests -/

/-- C13: for a round whose queue is empty, `Commitment`, `Challenge`, `Response` and
`SignatureBroadcast`, run one after the other, all return nil, and
`SignatureBroadcast` does nothing at all: no delivery is attempted. -/
theorem C13_empty_round_completes (env : Env) (round : RoundStamper)
    (inMsg : SigningMessage) (hq : round.Queue = []) :
    (Commitment env round).outcome = Outcome.returned none ∧
    (Challenge (Commitment env round).round).outcome = Outcome.returned none ∧
    (Response (Challenge (Commitment env round).round).round).outcome =
      Outcome.returned none ∧
    (SignatureBroadcast env
      (Response (Challenge (Commitment env round).round).round).round inMsg).outcome =
      Outcome.returned none ∧
    (SignatureBroadcast env
      (Response (Challenge (Commitment env round).round).round).round inMsg).trace = [] ∧
    deliveries (SignatureBroadcast env
      (Response (Challenge (Commitment env round).round).round).round inMsg).trace = [] := by
  simp [Commitment, Challenge, Response, SignatureBroadcast, broadcastLoop, hq, deliveries]

theorem C13_empty_round_completes_witness :
    roundEmpty.Queue = [] ∧
    (Commitment envEx roundEmpty).outcome = Outcome.returned none ∧
    (Challenge (Commitment envEx roundEmpty).round).outcome = Outcome.returned none ∧
    (Response (Challenge (Commitment envEx roundEmpty).round).round).outcome =
      Outcome.returned none ∧
    (SignatureBroadcast envEx
      (Response (Challenge (Commitment envEx roundEmpty).round).round).round inEx).outcome =
      Outcome.returned none ∧
    (SignatureBroadcast envEx
      (Response (Challenge (Commitment envEx roundEmpty).round).round).round inEx).trace =
      [] ∧
    deliveries (SignatureBroadcast envEx
      (Response (Challenge (Commitment envEx roundEmpty).round).round).round inEx).trace =
      [] :=
  ⟨rfl, C13_empty_round_completes envEx roundEmpty inEx rfl⟩

/-! ## C15: a short announcement does not abort -/

/-- C15: for every non-root node and every announcement payload shorter than 8 bytes,
`Announcement` does not abort: it returns nil and sets the `Timestamp` of the round
to 0. -/
theorem C15_short_payload_gives_zero_timestamp (env : Env) (round : RoundStamper)
    (viewNbr roundNbr : Int) (inMsg : SigningMessage) (now : Int)
    (hnon : (env.NewRoundStructure viewNbr roundNbr).isRoot = false)
    (hshort : inMsg.Am.Message.length < 8) :
    (Announcement env round viewNbr roundNbr inMsg now).outcome = Outcome.returned none ∧
    (Announcement env round viewNbr roundNbr inMsg now).round.Timestamp = 0 := by
  simp [Announcement, hnon, binaryRead_short _ hshort]

theorem C15_short_payload_gives_zero_timestamp_witness :
    (Announcement envEx roundEx 0 1 inEx 5).outcome = Outcome.returned none ∧
    (Announcement envEx roundEx 0 1 inEx 5).round.Timestamp = 0 :=
  C15_short_payload_gives_zero_timestamp envEx roundEx 0 1 inEx 5 (by decide) (by decide)

/-! ## C16: when Commitment panics -/

/-- C16: on an announced round, `Commitment` panics if and only if the queue is not
empty, the debug level is greater than 2 and `CheckLocalProofs` on the root, leaves
and proofs it has just stored is false; in every other case it returns nil. -/
theorem C16_commitment_panics_iff (env : Env) (round : RoundStamper) (rs : RoundStructure)
    (hrs : round.RoundStructure = some rs) :
    ((∃ msg, (Commitment env round).outcome = Outcome.panicked msg) ↔
      (round.Queue.length ≠ 0 ∧ env.DebugVisible > 2 ∧
        env.CheckLocalProofs rs.suite (Commitment env round).round.StampRoot
          (Commitment env round).round.StampLeaves
          (Commitment env round).round.StampProofs = false)) ∧
    (¬ (round.Queue.length ≠ 0 ∧ env.DebugVisible > 2 ∧
        env.CheckLocalProofs rs.suite (Commitment env round).round.StampRoot
          (Commitment env round).round.StampLeaves
          (Commitment env round).round.StampProofs = false) →
      (Commitment env round).outcome = Outcome.returned none) := by
  by_cases hq : round.Queue.length = 0
  · simp [Commitment, hq]
  · have hne : round.Queue ≠ [] := fun h => hq (by simp [h])
    rw [Commitment_round env round rs hq hrs]
    simp only [Commitment, hq, if_false, hrs]
    by_cases hd : env.DebugVisible > 2
    · cases hc : env.CheckLocalProofs rs.suite
          (env.ProofTree rs.suite (round.Queue.map fun msg => msg.Val)).1
          (round.Queue.map fun msg => msg.Val)
          (env.ProofTree rs.suite (round.Queue.map fun msg => msg.Val)).2 <;>
        simp [hd, hc, hne]
    · simp [hd]

theorem C16_commitment_panics_iff_witness :
    ((∃ msg, (Commitment envDebug roundEx).outcome = Outcome.panicked msg) ↔
      (roundEx.Queue.length ≠ 0 ∧ envDebug.DebugVisible > 2 ∧
        envDebug.CheckLocalProofs "s" (Commitment envDebug roundEx).round.StampRoot
          (Commitment envDebug roundEx).round.StampLeaves
          (Commitment envDebug roundEx).round.StampProofs = false)) ∧
    (¬ (roundEx.Queue.length ≠ 0 ∧ envDebug.DebugVisible > 2 ∧
        envDebug.CheckLocalProofs "s" (Commitment envDebug roundEx).round.StampRoot
          (Commitment envDebug roundEx).round.StampLeaves
          (Commitment envDebug roundEx).round.StampProofs = false) →
      (Commitment envDebug roundEx).outcome = Outcome.returned none) :=
  C16_commitment_panics_iff envDebug roundEx
    { isRoot := false, roundNbr := 1, viewNbr := 0, name := "node", suite := "s" } rfl

/-! ## C17: the sequence number of a response -/

/-- The queue `QueueSet` gives the round: the replies built from the old `READING`
buffer. -/
theorem QueueSet_queue (env : Env) (round round1 : RoundStamper)
    (Queue Queue1 : List (List MustReplyMessage)) (r p : List MustReplyMessage)
    (hr : Queue[env.READING]? = some r) (hp : Queue[env.PROCESSING]? = some p)
    (hne : env.READING ≠ env.PROCESSING)
    (hqs : QueueSet env round Queue = some (round1, Queue1)) :
    fillQueue r = some round1.Queue ∧ round1.RoundStructure = round.RoundStructure := by
  rw [QueueSet_eq env round Queue r p hr hp hne] at hqs
  cases hf : fillQueue r with
  | none => simp [hf] at hqs
  | some replies =>
    simp only [hf, Option.map_some', Option.some.injEq, Prod.mk.injEq] at hqs
    rw [← hqs.1]
    exact ⟨rfl, rfl⟩

/-- The sequence number and the addressee of the `i`-th delivery of a deliverable
round are those of the `i`-th queue entry. -/
theorem delivery_of_entry (env : Env) (round : RoundStamper) (inMsg : SigningMessage)
    (h : Deliverable round) (i : Nat) (hi : i < round.Queue.length) :
    ∃ d, (deliveries (SignatureBroadcast env round inMsg).trace)[i]? = some d ∧
      d.1 = round.Queue[i].To ∧ d.2.ReqNo = round.Queue[i].ReqNo := by
  obtain ⟨rs, hrs⟩ := Option.isSome_iff_exists.mp h.1
  obtain ⟨_, hd, _⟩ := SignatureBroadcast_spec env round inMsg rs hrs h
  have hp : i < round.StampProofs.length := lt_of_lt_of_le hi h.2.2.1
  refine ⟨(round.Queue[i].To,
    respMessg env round rs inMsg round.Queue[i] (round.Proof ++ round.StampProofs[i])),
    ?_, rfl, rfl⟩
  rw [hd, List.getElem?_zipWith_eq_some]
  exact ⟨round.Queue[i], round.StampProofs[i], List.getElem?_eq_getElem hi,
    List.getElem?_eq_getElem hp, rfl⟩

/-- C17: let `QueueSet` fill the queue of a round from the requests `r` of the
`READING` buffer, and let `SignatureBroadcast` run on that queue (on a deliverable
round). Then the response dispatched for request `i` carries the sequence number of
the request modulo 256; it is the number of the request exactly when that number is
below 256; and two requests whose numbers differ by a multiple of 256 get the same
response number. -/
theorem C17_response_number_mod_256 (env : Env) (round round1 round2 : RoundStamper)
    (Queue Queue1 : List (List MustReplyMessage)) (r p : List MustReplyMessage)
    (inMsg : SigningMessage)
    (hr : Queue[env.READING]? = some r) (hp : Queue[env.PROCESSING]? = some p)
    (hne : env.READING ≠ env.PROCESSING)
    (hqs : QueueSet env round Queue = some (round1, Queue1))
    (hq2 : round2.Queue = round1.Queue) (hd : Deliverable round2) :
    (∀ i (hi : i < r.length),
      ∃ d, (deliveries (SignatureBroadcast env round2 inMsg).trace)[i]? = some d ∧
        d.2.ReqNo = r[i].Tsm.ReqNo % 256 ∧
        (d.2.ReqNo = r[i].Tsm.ReqNo ↔ r[i].Tsm.ReqNo < 256)) ∧
    (∀ i j (hi : i < r.length) (hj : j < r.length) (di dj : String × TimeStampMessage),
      (deliveries (SignatureBroadcast env round2 inMsg).trace)[i]? = some di →
      (deliveries (SignatureBroadcast env round2 inMsg).trace)[j]? = some dj →
      (∃ k, r[i].Tsm.ReqNo = r[j].Tsm.ReqNo + 256 * k) →
      di.2.ReqNo = dj.2.ReqNo) := by
  have hf := (QueueSet_queue env round round1 Queue Queue1 r p hr hp hne hqs).1
  rw [← hq2] at hf
  have hk := fillQueue_keys r round2.Queue hf
  have hlen : round2.Queue.length = r.length := by
    simpa using congrArg List.length hk
  have hno : ∀ i (hi : i < r.length) (hi2 : i < round2.Queue.length),
      round2.Queue[i].ReqNo = r[i].Tsm.ReqNo % 256 := by
    intro i hi hi2
    have hidx := congrArg (fun l => l[i]?) hk
    simp only [List.getElem?_map, List.getElem?_eq_getElem hi,
      List.getElem?_eq_getElem hi2, Option.map_some', Option.some.injEq, replyKey,
      requestKey, Prod.mk.injEq] at hidx
    exact hidx.2.2
  have hmain : ∀ i (hi : i < r.length),
      ∃ d, (deliveries (SignatureBroadcast env round2 inMsg).trace)[i]? = some d ∧
        d.2.ReqNo = r[i].Tsm.ReqNo % 256 := by
    intro i hi
    have hi2 : i < round2.Queue.length := by omega
    obtain ⟨d, hdi, _, hdn⟩ := delivery_of_entry env round2 inMsg hd i hi2
    exact ⟨d, hdi, by rw [hdn, hno i hi hi2]⟩
  refine ⟨?_, ?_⟩
  · intro i hi
    obtain ⟨d, hdi, hdn⟩ := hmain i hi
    refine ⟨d, hdi, hdn, ?_⟩
    rw [hdn]
    constructor
    · intro h
      omega
    · intro h
      exact Nat.mod_eq_of_lt h
  · intro i j hi hj di dj hdi hdj hk256
    obtain ⟨d1, h1, hn1⟩ := hmain i hi
    obtain ⟨d2, h2, hn2⟩ := hmain j hj
    rw [hdi, Option.some.injEq] at h1
    rw [hdj, Option.some.injEq] at h2
    obtain ⟨k, hk⟩ := hk256
    rw [h1, h2, hn1, hn2, hk]
    omega

theorem QueueSet_buffersSeq :
    QueueSet envEx roundEx buffersSeq =
      some (roundSeq1, [[], [reqA, { reqC with Tsm := { reqC.Tsm with ReqNo := 44 } }, reqB]]) :=
  rfl

theorem C17_response_number_mod_256_witness :
    (∀ i (hi : i < [reqA, { reqC with Tsm := { reqC.Tsm with ReqNo := 44 } }, reqB].length),
      ∃ d, (deliveries (SignatureBroadcast envEx roundSeq2 inEx).trace)[i]? = some d ∧
        d.2.ReqNo =
          [reqA, { reqC with Tsm := { reqC.Tsm with ReqNo := 44 } }, reqB][i].Tsm.ReqNo % 256 ∧
        (d.2.ReqNo =
            [reqA, { reqC with Tsm := { reqC.Tsm with ReqNo := 44 } }, reqB][i].Tsm.ReqNo ↔
          [reqA, { reqC with Tsm := { reqC.Tsm with ReqNo := 44 } }, reqB][i].Tsm.ReqNo
            < 256)) ∧
    (∀ i j (hi : i < [reqA, { reqC with Tsm := { reqC.Tsm with ReqNo := 44 } }, reqB].length)
      (hj : j < [reqA, { reqC with Tsm := { reqC.Tsm with ReqNo := 44 } }, reqB].length)
      (di dj : String × TimeStampMessage),
      (deliveries (SignatureBroadcast envEx roundSeq2 inEx).trace)[i]? = some di →
      (deliveries (SignatureBroadcast envEx roundSeq2 inEx).trace)[j]? = some dj →
      (∃ k, [reqA, { reqC with Tsm := { reqC.Tsm with ReqNo := 44 } }, reqB][i].Tsm.ReqNo =
        [reqA, { reqC with Tsm := { reqC.Tsm with ReqNo := 44 } }, reqB][j].Tsm.ReqNo
          + 256 * k) →
      di.2.ReqNo = dj.2.ReqNo) :=
  C17_response_number_mod_256 envEx roundEx roundSeq1 roundSeq2 buffersSeq
    [[], [reqA, { reqC with Tsm := { reqC.Tsm with ReqNo := 44 } }, reqB]]
    [reqA, { reqC with Tsm := { reqC.Tsm with ReqNo := 44 } }, reqB] []
    inEx (by decide) (by decide) (by decide) QueueSet_buffersSeq rfl (by decide)

/-! ## C18: no index out of range in SignatureBroadcast -/

/-- The loop of `SignatureBroadcast` on a suffix of the queue whose entries all have a
leaf and a proof never panics with an index out of range. -/
theorem broadcastLoop_in_range (env : Env) (round : RoundStamper) (inMsg : SigningMessage) :
    ∀ (rest : List ReplyMessage) (i : Nat) (tr : List Event),
      i + rest.length ≤ round.StampProofs.length →
      i + rest.length ≤ round.StampLeaves.length →
      (broadcastLoop env round inMsg i rest tr).2 ≠ Outcome.panicked "index out of range"
  | [], _, _, _, _ => by simp [broadcastLoop]
  | msg :: rest, i, tr, hp, hl => by
    simp only [List.length_cons] at hp hl
    have hpi : i < round.StampProofs.length := by omega
    have hli : i < round.StampLeaves.length := by omega
    rw [broadcastLoop]
    simp only [List.getElem?_eq_getElem hpi, List.getElem?_eq_getElem hli]
    cases round.RoundStructure with
    | none => simp
    | some rs =>
      dsimp only
      split
      · simp
      · exact broadcastLoop_in_range env round inMsg rest (i + 1) _ (by omega) (by omega)

/-- C18: let `QueueSet` and then `Commitment` run on an announced round, with a
`ProofTree` that returns one proof per leaf. If the queue has `n ≥ 1` entries then
`StampLeaves` and `StampProofs` have exactly `n` entries, so that `StampLeaves[i]` and
`StampProofs[i]` exist for every `i < n`; `SignatureBroadcast` does not panic with an
index out of range; and with `n = 0` it does nothing and returns nil. -/
theorem C18_broadcast_indices_in_range (env : Env) (round round1 : RoundStamper)
    (Queue Queue1 : List (List MustReplyMessage)) (rs : RoundStructure)
    (inMsg : SigningMessage)
    (_hqs : QueueSet env round Queue = some (round1, Queue1))
    (hrs : round1.RoundStructure = some rs)
    (htree : ∀ suite leaves, (env.ProofTree suite leaves).2.length = leaves.length) :
    (Commitment env round1).round.Queue = round1.Queue ∧
    (1 ≤ round1.Queue.length →
      (Commitment env round1).round.StampLeaves.length = round1.Queue.length ∧
      (Commitment env round1).round.StampProofs.length = round1.Queue.length) ∧
    (∀ i, i < round1.Queue.length →
      ((Commitment env round1).round.StampLeaves[i]?).isSome = true ∧
      ((Commitment env round1).round.StampProofs[i]?).isSome = true) ∧
    (SignatureBroadcast env (Commitment env round1).round inMsg).outcome ≠
      Outcome.panicked "index out of range" ∧
    (round1.Queue.length = 0 →
      (SignatureBroadcast env (Commitment env round1).round inMsg).trace = [] ∧
      (SignatureBroadcast env (Commitment env round1).round inMsg).outcome =
        Outcome.returned none) := by
  have hlen : 1 ≤ round1.Queue.length →
      (Commitment env round1).round.Queue = round1.Queue ∧
      (Commitment env round1).round.StampLeaves.length = round1.Queue.length ∧
      (Commitment env round1).round.StampProofs.length = round1.Queue.length := by
    intro h1
    have hq : round1.Queue.length ≠ 0 := by omega
    rw [Commitment_round env round1 rs hq hrs]
    exact ⟨rfl, by simp, by simp [htree]⟩
  have hzero : round1.Queue.length = 0 →
      (Commitment env round1).round.Queue = round1.Queue := by
    intro h0
    simp [Commitment, h0]
  have hqueue : (Commitment env round1).round.Queue = round1.Queue := by
    by_cases h0 : round1.Queue.length = 0
    · exact hzero h0
    · exact (hlen (by omega)).1
  refine ⟨hqueue, fun h1 => (hlen h1).2, ?_, ?_, ?_⟩
  · intro i hi
    obtain ⟨_, hl, hp⟩ := hlen (by omega)
    have hil : i < (Commitment env round1).round.StampLeaves.length := by omega
    have hip : i < (Commitment env round1).round.StampProofs.length := by omega
    simp [List.getElem?_eq_getElem hil, List.getElem?_eq_getElem hip]
  · by_cases h0 : round1.Queue.length = 0
    · have hnil : (Commitment env round1).round.Queue = [] := by
        rw [hqueue]
        exact List.length_eq_zero.mp h0
      simp [SignatureBroadcast, hnil, broadcastLoop]
    · obtain ⟨_, hl, hp⟩ := hlen (by omega)
      exact broadcastLoop_in_range env _ inMsg _ 0 []
        (by rw [hqueue]; omega) (by rw [hqueue]; omega)
  · intro h0
    have hnil : (Commitment env round1).round.Queue = [] := by
      rw [hqueue]
      exact List.length_eq_zero.mp h0
    simp [SignatureBroadcast, hnil, broadcastLoop]

theorem C18_broadcast_indices_in_range_witness :
    (Commitment envTree roundSeq1).round.Queue = roundSeq1.Queue ∧
    (1 ≤ roundSeq1.Queue.length →
      (Commitment envTree roundSeq1).round.StampLeaves.length = roundSeq1.Queue.length ∧
      (Commitment envTree roundSeq1).round.StampProofs.length = roundSeq1.Queue.length) ∧
    (∀ i, i < roundSeq1.Queue.length →
      ((Commitment envTree roundSeq1).round.StampLeaves[i]?).isSome = true ∧
      ((Commitment envTree roundSeq1).round.StampProofs[i]?).isSome = true) ∧
    (SignatureBroadcast envTree (Commitment envTree roundSeq1).round inEx).outcome ≠
      Outcome.panicked "index out of range" ∧
    (roundSeq1.Queue.length = 0 →
      (SignatureBroadcast envTree (Commitment envTree roundSeq1).round inEx).trace = [] ∧
      (SignatureBroadcast envTree (Commitment envTree roundSeq1).round inEx).outcome =
        Outcome.returned none) :=
  C18_broadcast_indices_in_range envTree roundEx roundSeq1 buffersSeq
    [[], [reqA, { reqC with Tsm := { reqC.Tsm with ReqNo := 44 } }, reqB]]
    { isRoot := false, roundNbr := 1, viewNbr := 0, name := "node", suite := "s" } inEx
    rfl rfl (by intro suite leaves; simp [envTree])

end Conode

namespace Monitor

/-! ## Facts about send -/

theorem reported_append {F : Type} (a b : List (Event F)) :
    reported (a ++ b) = reported a ++ reported b := by
  simp [reported, List.filterMap_append]

theorem reported_sendLoop {F : Type} (enc : List (Event F) → SingleMeasure F → Bool)
    (v : SingleMeasure F) :
    ∀ (waits : List Nat) (tr : List (Event F)),
      reported (sendLoop enc v waits tr).1 = reported tr
  | [], _ => rfl
  | wait :: waits, tr => by
    rw [sendLoop]
    split
    · simp [reported_append, reported]
    · rw [reported_sendLoop enc v waits]
      simp [reported_append, reported]

theorem reported_send {F : Type} (sink : Sink F) (v : SingleMeasure F)
    (tr : List (Event F)) :
    reported (send sink v tr).1 = reported tr ++ [v] := by
  unfold send
  cases sink.encoder with
  | none => simp [reported_append, reported]
  | some enc =>
    dsimp only
    split
    · simp [reported_append, reported]
    · split <;> rw [reported_sendLoop] <;> simp [reported_append, reported]

/-- A call of `SingleMeasure.Record` hands exactly its measure to `send`. -/
theorem reported_Record {F : Type} (ops : Float64 F) (sink : Sink F)
    (sm : SingleMeasure F) (tr : List (Event F)) :
    reported (SingleMeasure.Record ops sink sm tr).2 = reported tr ++ [sm] := by
  unfold SingleMeasure.Record
  dsimp only
  split
  · rw [reported_append, reported_send]
    simp [reported]
  · exact reported_send sink sm tr

theorem encoded_append {F : Type} (a b : List (Event F)) :
    encoded (a ++ b) = encoded a ++ encoded b := by
  simp [encoded, List.filterMap_append]

/-- The loop of `send` puts only its measure to the encoder, at most once per value of
`wait`, and at least once when there is a value of `wait`. -/
theorem encoded_sendLoop {F : Type} (enc : List (Event F) → SingleMeasure F → Bool)
    (v : SingleMeasure F) :
    ∀ (waits : List Nat) (tr : List (Event F)),
      ∃ k, k ≤ waits.length ∧ (waits ≠ [] → 1 ≤ k) ∧
        encoded (sendLoop enc v waits tr).1 = encoded tr ++ List.replicate k v
  | [], tr => ⟨0, by simp, by simp, by simp [sendLoop]⟩
  | wait :: waits, tr => by
    rw [sendLoop]
    split
    · exact ⟨1, by simp, by simp, by simp [encoded_append, encoded]⟩
    · obtain ⟨k, hk, _, he⟩ := encoded_sendLoop enc v waits
        (tr ++ [Event.Encode v, Event.Lvl1 "Couldn't send to monitor-sink:", Event.Sleep wait])
      refine ⟨k + 1, by simpa using hk, by simp, ?_⟩
      rw [he, encoded_append]
      simp [encoded, List.replicate_succ]

/-- The loop of `send` on an encoder that accepts the measure: one `Encode`, and
success. -/
theorem sendLoop_accepting {F : Type} (enc : List (Event F) → SingleMeasure F → Bool)
    (v : SingleMeasure F) (hacc : ∀ t, enc t v = true) (wait : Nat) (waits : List Nat)
    (tr : List (Event F)) :
    sendLoop enc v (wait :: waits) tr = (tr ++ [Event.Encode v], true) := by
  simp [sendLoop, hacc]

/-- What `send` puts to the encoder: only its measure, at most five times, and at least
once exactly when the sink is connected and enabled. -/
theorem encoded_send {F : Type} (sink : Sink F) (v : SingleMeasure F)
    (tr : List (Event F)) :
    ∃ k, k ≤ 5 ∧ (1 ≤ k ↔ (sink.encoder.isSome = true ∧ sink.enabled = true)) ∧
      encoded (send sink v tr).1 = encoded tr ++ List.replicate k v := by
  unfold send
  cases henc : sink.encoder with
  | none => exact ⟨0, by simp, by simp, by simp [encoded_append, encoded]⟩
  | some enc =>
    dsimp only
    cases hen : sink.enabled with
    | false => exact ⟨0, by simp, by simp, by simp [encoded_append, encoded]⟩
    | true =>
      obtain ⟨k, hk, h1, he⟩ := encoded_sendLoop enc v [500, 600, 700, 800, 900]
        (tr ++ [Event.send v])
      refine ⟨k, by simpa using hk, by simpa using h1 (by simp), ?_⟩
      have hsplit : encoded (tr ++ [Event.send v]) = encoded tr := by
        simp [encoded_append, encoded]
      rw [hsplit] at he
      simp only [Bool.not_true, Bool.false_eq_true, if_false]
      split <;> exact he

/-- On an accepting sink `send` puts its measure to the encoder once and returns nil. -/
theorem send_accepting {F : Type} (sink : Sink F) (v : SingleMeasure F)
    (tr : List (Event F)) (h : Accepting sink) :
    send sink v tr = (tr ++ [Event.send v, Event.Encode v], none) := by
  obtain ⟨hen, enc, henc, hacc⟩ := h
  unfold send
  rw [henc]
  simp [hen, sendLoop_accepting enc v (fun t => hacc t v)]

/-- What `SingleMeasure.Record` puts to the encoder. -/
theorem encoded_Record {F : Type} (ops : Float64 F) (sink : Sink F)
    (sm : SingleMeasure F) (tr : List (Event F)) :
    ∃ k, k ≤ 5 ∧ (1 ≤ k ↔ (sink.encoder.isSome = true ∧ sink.enabled = true)) ∧
      encoded (SingleMeasure.Record ops sink sm tr).2 = encoded tr ++ List.replicate k sm := by
  obtain ⟨k, hk, h1, he⟩ := encoded_send sink sm tr
  refine ⟨k, hk, h1, ?_⟩
  unfold SingleMeasure.Record
  dsimp only
  split
  · rw [encoded_append, he]
    simp [encoded]
  · exact he

/-- On an accepting sink `SingleMeasure.Record` puts its measure to the encoder once
and logs no error. -/
theorem Record_accepting {F : Type} (ops : Float64 F) (sink : Sink F)
    (sm : SingleMeasure F) (tr : List (Event F)) (h : Accepting sink) :
    (SingleMeasure.Record ops sink sm tr).2 = tr ++ [Event.send sm, Event.Encode sm] := by
  simp [SingleMeasure.Record, send_accepting sink sm tr h]

theorem subUint64_self (a : Nat) : subUint64 a a = 0 := by
  unfold subUint64
  norm_num
  omega

theorem subUint64_of_le (a b : Nat) (hab : b ≤ a) (ha : a < 2 ^ 64) :
    subUint64 a b = a - b := by
  unfold subUint64
  norm_num at ha ⊢
  omega

/-! ## Facts about the counter measure -/

/-- The measures a counter record hands to `send`. -/
theorem reported_counter_Record {F : Type} (ops : Float64 F) (sink : Sink F)
    (cm : CounterIOMeasure F) (tr : List (Event F)) :
    reported (cm.Record ops sink tr).2 = reported tr ++
      differences ops cm.name (cm.counter.Rx tr % 2 ^ 64) cm.baseRx
        (cm.counter.Tx tr % 2 ^ 64) cm.baseTx := by
  simp [CounterIOMeasure.Record, reported_Record, NewSingleMeasure, differences]

/-- The measures a counter record puts to the encoder of an accepting sink. -/
theorem encoded_counter_Record {F : Type} (ops : Float64 F) (sink : Sink F)
    (cm : CounterIOMeasure F) (tr : List (Event F)) (h : Accepting sink) :
    encoded (cm.Record ops sink tr).2 = encoded tr ++
      differences ops cm.name (cm.counter.Rx tr % 2 ^ 64) cm.baseRx
        (cm.counter.Tx tr % 2 ^ 64) cm.baseTx := by
  simp only [CounterIOMeasure.Record, Record_accepting _ _ _ _ h, NewSingleMeasure,
    differences, encoded_append]
  simp [encoded]

/-- Whatever the sink, a counter record puts nothing to the encoder but its two
measures, the read one first, each at most five times, and each at least once
exactly when the sink is connected and enabled. -/
theorem encoded_counter_Record_any {F : Type} (ops : Float64 F) (sink : Sink F)
    (cm : CounterIOMeasure F) (tr : List (Event F)) :
    ∃ k1 k2, k1 ≤ 5 ∧ k2 ≤ 5 ∧
      (1 ≤ k1 ↔ (sink.encoder.isSome = true ∧ sink.enabled = true)) ∧
      (1 ≤ k2 ↔ (sink.encoder.isSome = true ∧ sink.enabled = true)) ∧
      encoded (cm.Record ops sink tr).2 = encoded tr ++
        List.replicate k1
          { Name := cm.name ++ "_rx",
            Value := ops.ofUint64 (subUint64 (cm.counter.Rx tr % 2 ^ 64) cm.baseRx) } ++
        List.replicate k2
          { Name := cm.name ++ "_tx",
            Value := ops.ofUint64 (subUint64 (cm.counter.Tx tr % 2 ^ 64) cm.baseTx) } := by
  obtain ⟨k1, hk1, h1, he1⟩ := encoded_Record ops sink
    (NewSingleMeasure (cm.name ++ "_rx")
      (ops.ofUint64 (subUint64 (cm.counter.Rx tr % 2 ^ 64) cm.baseRx))) tr
  obtain ⟨k2, hk2, h2, he2⟩ := encoded_Record ops sink
    (NewSingleMeasure (cm.name ++ "_tx")
      (ops.ofUint64 (subUint64 (cm.counter.Tx tr % 2 ^ 64) cm.baseTx)))
    (SingleMeasure.Record ops sink
      (NewSingleMeasure (cm.name ++ "_rx")
        (ops.ofUint64 (subUint64 (cm.counter.Rx tr % 2 ^ 64) cm.baseRx))) tr).2
  refine ⟨k1, k2, hk1, hk2, h1, h2, ?_⟩
  simp only [CounterIOMeasure.Record]
  rw [he2, he1]
  rfl

/-! ## C14: the counter measure reports differences -/

/-- C14: a call of `CounterIOMeasure.Record` computes the `uint64` differences of
`Rx()` and `baseRx` and of `Tx()` and `baseTx` (each converted to `float64`) and
hands them to `send` as the measures `_rx` and `_tx`; on a sink that is connected,
enabled and accepting, these two measures, and nothing else, are put to the encoder,
and whatever the sink nothing but these two measures is ever put to the encoder.
Where the counter has not wrapped the differences are the bytes read and written
since the base was taken. The call then sets `baseRx` and `baseTx` to the values just
read, so that a later `Record` at which the counter still shows these values reports
0 read and 0 written. The measure made by `NewCounterIOMeasure` has the values of
`Rx()` and `Tx()` at its creation as base, so that its first `Record` reports the bytes
read and written since `NewCounterIOMeasure`, and 0 and 0 if the counter has not
moved since. -/
theorem C14_counter_record_reports_differences {F : Type} (ops : Float64 F)
    (sink sink2 : Sink F) (cm : CounterIOMeasure F) (name : String) (counter : CounterIO F)
    (tr0 tr tr2 : List (Event F)) :
    reported (cm.Record ops sink tr).2 = reported tr ++
      differences ops cm.name (cm.counter.Rx tr % 2 ^ 64) cm.baseRx
        (cm.counter.Tx tr % 2 ^ 64) cm.baseTx ∧
    (Accepting sink →
      encoded (cm.Record ops sink tr).2 = encoded tr ++
        differences ops cm.name (cm.counter.Rx tr % 2 ^ 64) cm.baseRx
          (cm.counter.Tx tr % 2 ^ 64) cm.baseTx) ∧
    (∃ k1 k2, k1 ≤ 5 ∧ k2 ≤ 5 ∧
      (1 ≤ k1 ↔ (sink.encoder.isSome = true ∧ sink.enabled = true)) ∧
      (1 ≤ k2 ↔ (sink.encoder.isSome = true ∧ sink.enabled = true)) ∧
      encoded (cm.Record ops sink tr).2 = encoded tr ++
        List.replicate k1
          { Name := cm.name ++ "_rx",
            Value := ops.ofUint64 (subUint64 (cm.counter.Rx tr % 2 ^ 64) cm.baseRx) } ++
        List.replicate k2
          { Name := cm.name ++ "_tx",
            Value := ops.ofUint64 (subUint64 (cm.counter.Tx tr % 2 ^ 64) cm.baseTx) }) ∧
    (cm.baseRx ≤ cm.counter.Rx tr → cm.counter.Rx tr < 2 ^ 64 →
      subUint64 (cm.counter.Rx tr % 2 ^ 64) cm.baseRx = cm.counter.Rx tr - cm.baseRx) ∧
    (cm.baseTx ≤ cm.counter.Tx tr → cm.counter.Tx tr < 2 ^ 64 →
      subUint64 (cm.counter.Tx tr % 2 ^ 64) cm.baseTx = cm.counter.Tx tr - cm.baseTx) ∧
    (cm.Record ops sink tr).1.baseRx = cm.counter.Rx tr % 2 ^ 64 ∧
    (cm.Record ops sink tr).1.baseTx = cm.counter.Tx tr % 2 ^ 64 ∧
    (cm.counter.Rx tr2 % 2 ^ 64 = cm.counter.Rx tr % 2 ^ 64 →
      cm.counter.Tx tr2 % 2 ^ 64 = cm.counter.Tx tr % 2 ^ 64 →
      reported ((cm.Record ops sink tr).1.Record ops sink2 tr2).2 = reported tr2 ++
        [{ Name := cm.name ++ "_rx", Value := ops.ofUint64 0 },
         { Name := cm.name ++ "_tx", Value := ops.ofUint64 0 }] ∧
      (Accepting sink2 →
        encoded ((cm.Record ops sink tr).1.Record ops sink2 tr2).2 = encoded tr2 ++
          [{ Name := cm.name ++ "_rx", Value := ops.ofUint64 0 },
           { Name := cm.name ++ "_tx", Value := ops.ofUint64 0 }])) ∧
    (NewCounterIOMeasure name counter tr0).baseRx = counter.Rx tr0 % 2 ^ 64 ∧
    (NewCounterIOMeasure name counter tr0).baseTx = counter.Tx tr0 % 2 ^ 64 ∧
    reported ((NewCounterIOMeasure name counter tr0).Record ops sink tr).2 = reported tr ++
      differences ops name (counter.Rx tr % 2 ^ 64) (counter.Rx tr0 % 2 ^ 64)
        (counter.Tx tr % 2 ^ 64) (counter.Tx tr0 % 2 ^ 64) ∧
    (Accepting sink →
      encoded ((NewCounterIOMeasure name counter tr0).Record ops sink tr).2 = encoded tr ++
        differences ops name (counter.Rx tr % 2 ^ 64) (counter.Rx tr0 % 2 ^ 64)
          (counter.Tx tr % 2 ^ 64) (counter.Tx tr0 % 2 ^ 64)) ∧
    (counter.Rx tr % 2 ^ 64 = counter.Rx tr0 % 2 ^ 64 →
      counter.Tx tr % 2 ^ 64 = counter.Tx tr0 % 2 ^ 64 →
      differences ops name (counter.Rx tr % 2 ^ 64) (counter.Rx tr0 % 2 ^ 64)
          (counter.Tx tr % 2 ^ 64) (counter.Tx tr0 % 2 ^ 64) =
        [{ Name := name ++ "_rx", Value := ops.ofUint64 0 },
         { Name := name ++ "_tx", Value := ops.ofUint64 0 }]) := by
  have hzero : ∀ (n : String) (a b : Nat),
      differences ops n a a b b =
        [{ Name := n ++ "_rx", Value := ops.ofUint64 0 },
         { Name := n ++ "_tx", Value := ops.ofUint64 0 }] := by
    intro n a b
    simp [differences, subUint64_self]
  have hsecond : ∀ (t : List (Event F)),
      cm.counter.Rx t % 2 ^ 64 = cm.counter.Rx tr % 2 ^ 64 →
      cm.counter.Tx t % 2 ^ 64 = cm.counter.Tx tr % 2 ^ 64 →
      differences ops (cm.Record ops sink tr).1.name
          ((cm.Record ops sink tr).1.counter.Rx t % 2 ^ 64) (cm.Record ops sink tr).1.baseRx
          ((cm.Record ops sink tr).1.counter.Tx t % 2 ^ 64) (cm.Record ops sink tr).1.baseTx =
        [{ Name := cm.name ++ "_rx", Value := ops.ofUint64 0 },
         { Name := cm.name ++ "_tx", Value := ops.ofUint64 0 }] := by
    intro t hrx htx
    have e1 : (cm.Record ops sink tr).1.counter = cm.counter := rfl
    have e2 : (cm.Record ops sink tr).1.name = cm.name := rfl
    have e3 : (cm.Record ops sink tr).1.baseRx = cm.counter.Rx tr % 2 ^ 64 := rfl
    have e4 : (cm.Record ops sink tr).1.baseTx = cm.counter.Tx tr % 2 ^ 64 := rfl
    rw [e1, e2, e3, e4, hrx, htx, hzero]
  refine ⟨reported_counter_Record ops sink cm tr,
    encoded_counter_Record ops sink cm tr,
    encoded_counter_Record_any ops sink cm tr, ?_, ?_, rfl, rfl, ?_, rfl, rfl,
    reported_counter_Record ops sink (NewCounterIOMeasure name counter tr0) tr,
    encoded_counter_Record ops sink (NewCounterIOMeasure name counter tr0) tr, ?_⟩
  · intro h1 h2
    rw [Nat.mod_eq_of_lt h2]
    exact subUint64_of_le _ _ h1 h2
  · intro h1 h2
    rw [Nat.mod_eq_of_lt h2]
    exact subUint64_of_le _ _ h1 h2
  · intro hrx htx
    refine ⟨?_, ?_⟩
    · rw [reported_counter_Record, hsecond tr2 hrx htx]
    · intro hacc
      rw [encoded_counter_Record _ _ _ _ hacc, hsecond tr2 hrx htx]
  · intro hrx htx
    rw [hrx, htx, hzero]

theorem accepting_sinkEx : Accepting sinkEx :=
  ⟨rfl, _, rfl, fun _ _ => rfl⟩

theorem C14_counter_record_reports_differences_witness :
    Accepting sinkEx ∧
    (cmEx.baseRx ≤ cmEx.counter.Rx trOne ∧ cmEx.counter.Rx trOne < 2 ^ 64) ∧
    (cmEx.baseTx ≤ cmEx.counter.Tx trOne ∧ cmEx.counter.Tx trOne < 2 ^ 64) ∧
    reported (cmEx.Record floatEx sinkEx trOne).2 = reported trOne ++
      differences floatEx cmEx.name (cmEx.counter.Rx trOne % 2 ^ 64) cmEx.baseRx
        (cmEx.counter.Tx trOne % 2 ^ 64) cmEx.baseTx ∧
    encoded (cmEx.Record floatEx sinkEx trOne).2 = encoded trOne ++
      differences floatEx cmEx.name (cmEx.counter.Rx trOne % 2 ^ 64) cmEx.baseRx
        (cmEx.counter.Tx trOne % 2 ^ 64) cmEx.baseTx ∧
    subUint64 (cmEx.counter.Rx trOne % 2 ^ 64) cmEx.baseRx =
      cmEx.counter.Rx trOne - cmEx.baseRx ∧
    subUint64 (cmEx.counter.Tx trOne % 2 ^ 64) cmEx.baseTx =
      cmEx.counter.Tx trOne - cmEx.baseTx ∧
    (reported ((cmEx.Record floatEx sinkEx trOne).1.Record floatEx sinkEx
        (cmEx.Record floatEx sinkEx trOne).2).2 =
      reported (cmEx.Record floatEx sinkEx trOne).2 ++
        [{ Name := cmEx.name ++ "_rx", Value := floatEx.ofUint64 0 },
         { Name := cmEx.name ++ "_tx", Value := floatEx.ofUint64 0 }] ∧
      (Accepting sinkEx →
        encoded ((cmEx.Record floatEx sinkEx trOne).1.Record floatEx sinkEx
            (cmEx.Record floatEx sinkEx trOne).2).2 =
          encoded (cmEx.Record floatEx sinkEx trOne).2 ++
            [{ Name := cmEx.name ++ "_rx", Value := floatEx.ofUint64 0 },
             { Name := cmEx.name ++ "_tx", Value := floatEx.ofUint64 0 }])) ∧
    encoded ((NewCounterIOMeasure "bw" counterEx []).Record floatEx sinkEx trOne).2 =
      encoded trOne ++
        differences floatEx "bw" (counterEx.Rx trOne % 2 ^ 64) (counterEx.Rx [] % 2 ^ 64)
          (counterEx.Tx trOne % 2 ^ 64) (counterEx.Tx [] % 2 ^ 64) :=
  have h := C14_counter_record_reports_differences floatEx sinkEx sinkEx cmEx "bw"
    counterEx [] trOne (cmEx.Record floatEx sinkEx trOne).2
  ⟨accepting_sinkEx, by decide, by decide, h.1, h.2.1 accepting_sinkEx,
    h.2.2.2.1 (by decide) (by decide), h.2.2.2.2.1 (by decide) (by decide),
    h.2.2.2.2.2.2.2.1 rfl rfl, h.2.2.2.2.2.2.2.2.2.2.2.1 accepting_sinkEx⟩

/-- The example counter measure puts 6 bytes read and 15 written to the encoder, and
then 0 and 0. -/
theorem cmEx_encodes :
    encoded ((cmEx.Record floatEx sinkEx []).1.Record floatEx sinkEx
        (cmEx.Record floatEx sinkEx []).2).2 =
      [{ Name := "bw_rx", Value := 6 }, { Name := "bw_tx", Value := 15 },
       { Name := "bw_rx", Value := 0 }, { Name := "bw_tx", Value := 0 }] := by
  decide

/-- A fresh counter measure reports what the counter has moved since its creation: 5
bytes read and 7 written after one measure was sent; on a sink whose encoder fails
twice the first measure is put to it three times; on a disabled sink nothing is put to
the encoder. -/
theorem newCounter_encodes :
    encoded ((NewCounterIOMeasure "bw" counterEx []).Record floatEx sinkEx trOne).2 =
      [{ Name := "bw_rx", Value := 5 }, { Name := "bw_tx", Value := 7 }] ∧
    encoded ((NewCounterIOMeasure "bw" counterEx []).Record floatEx sinkSlow trOne).2 =
      [{ Name := "bw_rx", Value := 5 }, { Name := "bw_rx", Value := 5 },
       { Name := "bw_rx", Value := 5 }, { Name := "bw_tx", Value := 7 }] ∧
    encoded ((NewCounterIOMeasure "bw" counterEx []).Record floatEx sinkOff trOne).2 = [] ∧
    reported ((NewCounterIOMeasure "bw" counterEx []).Record floatEx sinkOff trOne).2 =
      [{ Name := "round", Value := 1 }, { Name := "bw_rx", Value := 5 },
       { Name := "bw_tx", Value := 7 }] := by
  decide

/-! ## C20: the docker measure -/

/-- The loop of `Update` on a measure whose `sys` and `user` are empty leaves them
empty and keeps the docker ids: it either finds no file or panics. -/
theorem updateLoop_keeps_empty {F : Type} (files : Files F) :
    ∀ (rest : List String) (i : Nat) (dm : DockerMeasure F) (tr : List (Event F)),
      dm.sys = [] → dm.user = [] →
      (updateLoop files i rest dm tr).dm = dm
  | [], _, _, _, _, _ => rfl
  | d :: rest, i, dm, tr, hs, hu => by
    rw [updateLoop]
    dsimp only
    split
    · exact updateLoop_keeps_empty files rest (i + 1) dm _ hs hu
    · split
      · simp [hu]
      · rfl

/-- The loop of `Record` on a measure whose `sys` is empty panics at the first docker
id, before any measure is sent. -/
theorem recordLoop_empty_sys {F : Type} (ops : Float64 F) (sink : Sink F)
    (dm : DockerMeasure F) (hs : dm.sys = []) (i : Nat) (d : String) (rest : List String)
    (tr : List (Event F)) :
    recordLoop ops sink dm i (d :: rest) tr = (tr, some "index out of range") := by
  simp [recordLoop, hs]

/-- For every measure made by `NewDockerMeasure` with at least one docker id, also
after a call of `Update`, the method `Record` panics with an index out of range and
sends nothing. -/
theorem Record_of_new_panics {F : Type} (ops : Float64 F) (sink : Sink F) (files : Files F)
    (name d : String) (rest : List String) (tr tr2 : List (Event F)) :
    (DockerMeasure.Record ops sink (NewDockerMeasure name (d :: rest)) tr).panic =
      some "index out of range" ∧
    (DockerMeasure.Record ops sink (NewDockerMeasure name (d :: rest)) tr).trace = tr ∧
    (DockerMeasure.Record ops sink
      (DockerMeasure.Update files (NewDockerMeasure name (d :: rest)) tr).dm tr2).panic =
      some "index out of range" ∧
    (DockerMeasure.Record ops sink
      (DockerMeasure.Update files (NewDockerMeasure name (d :: rest)) tr).dm tr2).trace =
      tr2 := by
  have hu : (DockerMeasure.Update files (NewDockerMeasure name (d :: rest)) tr).dm =
      NewDockerMeasure name (d :: rest) :=
    updateLoop_keeps_empty files (d :: rest) 0 (NewDockerMeasure name (d :: rest)) tr rfl rfl
  rw [hu]
  simp [DockerMeasure.Record, NewDockerMeasure, recordLoop]

/-- C20 fails on the code: the measure made by `NewDockerMeasure` for one docker id
has no entry in `sys` and `user`; `Record` panics with an index out of range at
`dm.sys[0]` and sends no measure, where the claim has it send two. A call of `Update`
before does not help: it finds no stat file and changes nothing, or it panics itself
at `dm.user[0]`. -/
theorem C20_record_of_new_docker_measure_panics :
    (NewDockerMeasure "m" ["abc"] : DockerMeasure Int).docker.length = 1 ∧
    (NewDockerMeasure "m" ["abc"] : DockerMeasure Int).sys.length = 0 ∧
    (NewDockerMeasure "m" ["abc"] : DockerMeasure Int).user.length = 0 ∧
    (DockerMeasure.Record floatEx sinkEx (NewDockerMeasure "m" ["abc"]) []).panic =
      some "index out of range" ∧
    reported (DockerMeasure.Record floatEx sinkEx (NewDockerMeasure "m" ["abc"]) []).trace =
      [] ∧
    (DockerMeasure.Update filesEx (NewDockerMeasure "m" ["abc"]) []).panic =
      some "index out of range" ∧
    (DockerMeasure.Update filesNone (NewDockerMeasure "m" ["abc"]) []).panic = none ∧
    (DockerMeasure.Record floatEx sinkEx
      (DockerMeasure.Update filesNone (NewDockerMeasure "m" ["abc"]) []).dm []).panic =
      some "index out of range" ∧
    reported (DockerMeasure.Record floatEx sinkEx
      (DockerMeasure.Update filesNone (NewDockerMeasure "m" ["abc"]) []).dm []).trace =
      [] := by
  decide

end Monitor

namespace Swupdate

/-! ## Facts about the loop of orderName -/

theorem fillNames_append :
    ∀ (ks pre post : List String), post.length = ks.length →
      fillNames (pre ++ post) pre.length ks = some (pre ++ ks)
  | [], pre, post, h => by
    have : post = [] := List.length_eq_zero.mp h
    simp [fillNames, this]
  | k :: ks, pre, [], h => by simp at h
  | k :: ks, pre, p :: post, h => by
    have hlen : post.length = ks.length := by simpa using h
    have hset : (pre ++ p :: post).set pre.length k = (pre ++ [k]) ++ post := by
      simp [List.set_append]
    have ih := fillNames_append ks (pre ++ [k]) post hlen
    rw [fillNames]
    simp only [List.length_append, List.length_cons, hset]
    simp only [List.length_append, List.length_singleton, List.append_assoc,
      List.singleton_append] at ih
    simp [ih]

theorem fillNames_replicate (ks : List String) (n : Nat) (h : ks.length = n) :
    fillNames (List.replicate n "") 0 ks = some ks := by
  have := fillNames_append ks [] (List.replicate n "") (by simp [h])
  simpa using this

/-! ## Facts about the sort -/

theorem sortStrings_perm (n : List String) : (sortStrings n).Perm n :=
  List.perm_insertionSort _ n

theorem sortStrings_sorted (n : List String) :
    (sortStrings n).Sorted fun a b => a.toList ≤ b.toList := by
  haveI : IsTotal String (fun a b => a.toList ≤ b.toList) := ⟨fun a b => le_total _ _⟩
  haveI : IsTrans String (fun a b => a.toList ≤ b.toList) := ⟨fun a b c => le_trans⟩
  exact List.sorted_insertionSort _ n

theorem sortStrings_eq_of_perm (a b : List String) (h : a.Perm b) :
    sortStrings a = sortStrings b := by
  haveI : IsAntisymm String (fun a b => a.toList ≤ b.toList) :=
    ⟨fun a b h1 h2 => String.toList_inj.mp (le_antisymm h1 h2)⟩
  exact List.eq_of_perm_of_sorted
    (((sortStrings_perm a).trans h).trans (sortStrings_perm b).symm)
    (sortStrings_sorted a) (sortStrings_sorted b)

theorem sortStrings_strict (n : List String) (hnd : n.Nodup) :
    (sortStrings n).Sorted (· < ·) := by
  have hs := sortStrings_sorted n
  have hn : (sortStrings n).Nodup := (sortStrings_perm n).nodup_iff.mpr hnd
  exact (List.Pairwise.and hs hn).imp fun {a b} h =>
    lt_of_le_of_ne (String.le_iff_toList_le.mpr h.1) h.2

theorem lookup_of_mem_keys :
    ∀ (es : List (String × SkipBlockID)) (x : String), x ∈ es.map (fun e => e.1) →
      ∃ v, lookup es x = some v ∧ (x, v) ∈ es
  | [], x, h => by simp at h
  | (k, v) :: es, x, h => by
    by_cases hx : x = k
    · exact ⟨v, by simp [lookup, hx], by simp [hx]⟩
    · have hmem : x ∈ es.map (fun e => e.1) := by
        simpa [hx] using h
      obtain ⟨w, hw, hin⟩ := lookup_of_mem_keys es x hmem
      exact ⟨w, by simp [lookup, hx, hw], List.mem_cons_of_mem _ hin⟩

/-- The names `orderName` returns do not depend on the order of the iteration. -/
theorem orderName_eq (m : GoMap) (iter : List String) (h : iter.Perm m.keys) :
    orderName m iter = some (sortStrings m.keys) := by
  have hlen : iter.length = m.len := by
    rw [h.length_eq]
    simp [GoMap.keys, GoMap.len]
  simp only [orderName, fillNames_replicate iter m.len hlen]
  rw [sortStrings_eq_of_perm iter m.keys h]

/-! ## C19: names and ids are aligned -/

/-- C19: for every map `m` (each key once) and whatever order the two `range` loops
yield the keys in, `orderName(m)` lists every key of `m` exactly once, in strictly
ascending order, `orderedIdsFromName(m)` has the same length, and its `i`-th id is
`m[orderName(m)[i]]`, the id stored under the `i`-th name. -/
theorem C19_names_and_ids_aligned (m : GoMap) (it1 it2 : List String)
    (hnd : m.keys.Nodup) (h1 : it1.Perm m.keys) (h2 : it2.Perm m.keys) :
    ∃ names ids, orderName m it1 = some names ∧ orderedIdsFromName m it2 = some ids ∧
      names.Perm m.keys ∧ names.Nodup ∧ names.Sorted (· < ·) ∧
      ids.length = names.length ∧
      ∀ i (hi : i < names.length),
        ids[i]? = some (m.get names[i]) ∧ (names[i], m.get names[i]) ∈ m.entries := by
  have hperm := sortStrings_perm m.keys
  refine ⟨sortStrings m.keys, (sortStrings m.keys).map m.get, orderName_eq m it1 h1, ?_,
    hperm, hperm.nodup_iff.mpr hnd, sortStrings_strict m.keys hnd, by simp, ?_⟩
  · simp [orderedIdsFromName, orderName_eq m it2 h2]
  · intro i hi
    refine ⟨by simp [List.getElem?_eq_getElem hi], ?_⟩
    have hmem : (sortStrings m.keys)[i] ∈ m.keys :=
      hperm.subset (List.getElem_mem hi)
    obtain ⟨v, hv, hin⟩ := lookup_of_mem_keys m.entries _ hmem
    simpa [GoMap.get, hv] using hin

theorem C19_names_and_ids_aligned_witness :
    mapEx.keys.Nodup ∧
    ∃ names ids, orderName mapEx ["vim", "apt", "git"] = some names ∧
      orderedIdsFromName mapEx ["git", "apt", "vim"] = some ids ∧
      names.Perm mapEx.keys ∧ names.Nodup ∧ names.Sorted (· < ·) ∧
      ids.length = names.length ∧
      ∀ i (hi : i < names.length),
        ids[i]? = some (mapEx.get names[i]) ∧ (names[i], mapEx.get names[i]) ∈ mapEx.entries :=
  ⟨by decide, C19_names_and_ids_aligned mapEx ["vim", "apt", "git"] ["git", "apt", "vim"]
    (by decide) (by decide) (by decide)⟩

end Swupdate
